import Mathlib

/-!
Verification of the ShadowsocksR client core: the `auth_aes128_{md5,sha1}`
protocol framing (`obfs/auth.c`), the tunnel state machine's SOCKS5 error
replies (`src/client/tunnel.c`) and the tunnel-cipher construction
(`ssr_executive.c`).

Byte buffers are `List Nat`, one entry per byte value; machine integers are
`Nat` with explicit `% 256` / `% 2 ^ 32` where the C code truncates.
External primitives that are not part of this repository's sources (HMAC,
MD5/SHA1, AES-128-CBC, base64, `bytes_to_key_with_size`, the
`xorshift128plus` PRNG and `rand_bytes`) enter as function parameters:
theorems hold for every choice of them, and concrete counterexamples
instantiate them with explicit computable functions.
-/

namespace SSR

/-- Little-endian 16-bit encoding, as written by
`outdata[0] = (char)out_size; outdata[1] = (char)(out_size >> 8)`. -/
def le16 (v : Nat) : List Nat := [v % 256, v / 256 % 256]

/-- Little-endian 32-bit encoding of a `u32` value.
Modelled from the spec: `memintcopy_lt` (whose C source is not in the
extract) stores a 32-bit integer little-endian; the spec writes
`pack_id (LE u32)`, `connection_id_LE`, `uid = uid_decimal (LE u32)`. -/
def le32 (v : Nat) : List Nat :=
  [v % 256, v / 256 % 256, v / 65536 % 256, v / 16777216 % 256]

/-- The length field read by the receiver:
`length = ((int)recv_buffer[1] << 8) + recv_buffer[0]`. -/
def readLE16 (l : List Nat) : Nat := l.getD 0 0 + 256 * l.getD 1 0

/-- Model of `memcpy(buf + off, src, src_len)` on a byte buffer: replace
the `src.length` bytes of `buf` starting at `off` by `src`. -/
def writeAt (buf : List Nat) (off : Nat) (src : List Nat) : List Nat :=
  buf.take off ++ src ++ buf.drop (off + src.length)

/-- Model of `rand_bytes(p, k)`: `k` bytes drawn from the byte source
`pad` (an arbitrary function, universally quantified in theorems). -/
def randList (pad : Nat → Nat) (k : Nat) : List Nat :=
  (List.range k).map pad

/-- `static int auth_simple_pack_unit_size = 2000;` -/
def auth_simple_pack_unit_size : Nat := 2000

/-- Translation of `get_rand_len(datalength, fulldatalength, local, server)`.
`r` is the `xorshift128plus()` draw; the C masks `& 0x7F` … `& 0x3FF` are
written as `% 128` … `% 1024` (equal on non-negative values since the
masks are `2^k - 1`). -/
def get_rand_len (datalength fulldatalength lastDataLen bufferSize r : Nat) : Nat :=
  if 1300 < datalength ∨ 1300 < lastDataLen ∨ bufferSize ≤ fulldatalength then 0
  else if 1100 < datalength then r % 128
  else if 900 < datalength then r % 256
  else if 400 < datalength then r % 512
  else r % 1024

/-- The buffer-writing part of `auth_aes128_sha1_pack_data`, with the
already-drawn `rand_len` as a parameter; the writes are modelled in
source order with `writeAt`.  `mac key msg` is the HMAC primitive bound
in the local data and `pad` the `rand_bytes` source. -/
def pack_data_core (mac : List Nat → List Nat → List Nat)
    (userKey : List Nat) (packId rand_len : Nat) (pad : Nat → Nat)
    (data : List Nat) : List Nat :=
  let n := data.length
  let out_size := rand_len + n + 8
  let key := userKey ++ le32 packId
  -- out_buffer comes from `calloc` in the caller, hence the zero fill
  let b0 := List.replicate out_size 0
  -- memcpy(outdata + rand_len + 4, data, datalength);
  let b1 := writeAt b0 (rand_len + 4) data
  -- outdata[0] = (char)out_size; outdata[1] = (char)(out_size >> 8);
  let b2 := writeAt b1 0 [out_size % 256]
  let b3 := writeAt b2 1 [out_size / 256 % 256]
  -- rand_bytes(rnd_data, rand_len); memcpy(outdata + 4, rnd_data, rand_len);
  let b4 := writeAt b3 4 (randList pad rand_len)
  -- local->hmac(hash, outdata, 2, key, key_len); memcpy(outdata + 2, hash, 2);
  let b5 := writeAt b4 2 ((mac key (b4.take 2)).take 2)
  -- the random-length marker: 1 byte below 128, otherwise 0xFF + LE u16
  let b6 :=
    if rand_len < 128 then writeAt b5 4 [rand_len % 256]
    else writeAt (writeAt (writeAt b5 4 [255]) 5 [rand_len % 256]) 6 [rand_len / 256 % 256]
  -- local->hmac(hash, outdata, out_size - 4, key, key_len); trailing 4-byte tag
  writeAt b6 (out_size - 4) ((mac key (b6.take (out_size - 4))).take 4)

/-- Translation of `auth_aes128_sha1_pack_data(data, datalength,
fulldatalength, outdata, obfs)` (shared by the md5 variant through the
`mac` parameter): `rand_len = get_rand_len(..) + 1`, then the buffer
writes of `pack_data_core`.  `r` is the `xorshift128plus()` draw. -/
def auth_aes128_sha1_pack_data (mac : List Nat → List Nat → List Nat)
    (userKey : List Nat) (packId : Nat) (lastDataLen bufferSize : Nat)
    (r : Nat) (pad : Nat → Nat) (data : List Nat) (fulldatalength : Nat) :
    List Nat :=
  pack_data_core mac userKey packId
    (get_rand_len data.length fulldatalength lastDataLen bufferSize r + 1) pad data

/-- External crypto primitives reaching `auth.c` through `encrypt.h` and
`base64.h`; they are parameters of the embedding. `mac key msg` is
`ss_{md5,sha1}_hmac_with_key`, `hashF` is `ss_{md5,sha1}_hash_func`,
`aes plain key` is `ss_aes_128_cbc`, `b64` is `std_base64_encode` and
`btk pass n` is `bytes_to_key_with_size`. -/
structure AuthEnv where
  mac : List Nat → List Nat → List Nat
  hashF : List Nat → List Nat
  hashLen : Nat
  aes : List Nat → List Nat → List Nat
  b64 : List Nat → List Nat
  btk : List Nat → Nat → List Nat

/-- The fields of `server_info_t` that the `auth_aes128_*` client code
reads: the per-connection `iv`, the cipher `key` (server key), the
protocol `param` string (as bytes, `none` for NULL) and `buffer_size`. -/
structure AuthSrv where
  iv : List Nat
  key : List Nat
  param : Option (List Nat)
  bufferSize : Nat

/-- `auth_simple_global_data`: `uint8_t local_client_id[8]` and
`uint32_t connection_id`. -/
structure AuthGlobal where
  local_client_id : List Nat
  connection_id : Nat
deriving Repr, DecidableEq

/-- The send-side fields of `auth_simple_local_data` used by
`client_pre_encrypt`: `has_sent_header`, `pack_id`, `user_key`
(NULL until resolved), `uid` and `last_data_len`. -/
structure AuthLocal where
  has_sent_header : Bool
  pack_id : Nat
  user_key : Option (List Nat)
  uid : List Nat
  last_data_len : Nat
deriving Repr, DecidableEq

/-- The `connection_id` / `local_client_id` update performed once inside
each `*_pack_auth_data`:
`++global->connection_id; if (global->connection_id > 0xFF000000) { rand_bytes(local_client_id, 8); rand_bytes(&connection_id, 4); connection_id &= 0xFFFFFF; }`.
`reseedCid` / `reseedConn` stand for the two `rand_bytes` draws. -/
def auth_update_connection_id (reseedCid : List Nat) (reseedConn : Nat)
    (g : AuthGlobal) : AuthGlobal :=
  let c := (g.connection_id + 1) % 4294967296
  if 4278190080 < c then
    { local_client_id := reseedCid, connection_id := reseedConn % 16777216 }
  else
    { local_client_id := g.local_client_id, connection_id := c }

/-- `strchr(param, ':')` followed by the two `str(n)cpy`s: split a byte
string at its first `':'` (byte 58). -/
def splitColon : List Nat → Option (List Nat × List Nat)
  | [] => none
  | c :: rest =>
    if c = 58 then some ([], rest)
    else match splitColon rest with
         | none => none
         | some (a, b) => some (c :: a, b)

/-- Model of `strtol(uid_str, NULL, 10)` on the decimal strings the claim
is about: the value of the leading run of decimal digits (no sign,
no clamping; theorems restrict to values below `2^31`). -/
def strtolDec (l : List Nat) : Nat :=
  (l.takeWhile (fun c => 48 ≤ c && c ≤ 57)).foldl (fun a c => a * 10 + (c - 48)) 0

/-- The user-key resolution block of `auth_aes128_sha1_pack_auth_data`
(run only while `local->user_key == NULL`): a `param` of the form
`"<uid_decimal>:<key_str>"` gives `uid = (uint32_t)uid_long` (LE) and
`user_key = hash(key_str)` truncated to `hash_len`; otherwise `uid` is 4
random bytes (`rndUid`) and `user_key` is the server key.  Returns
`(uid, user_key)`. -/
def resolveUserKey (env : AuthEnv) (srv : AuthSrv) (rndUid : List Nat) :
    List Nat × List Nat :=
  match srv.param with
  | some p =>
    if p ≠ [] then
      match splitColon p with
      | some (uidStr, keyStr) =>
        (le32 (strtolDec uidStr % 4294967296), (env.hashF keyStr).take env.hashLen)
      | none => (rndUid, srv.key)
    else (rndUid, srv.key)
  | none => (rndUid, srv.key)

/-- The 16-byte plaintext block of the auth chunk:
`time_u32_LE ‖ local_client_id[0..4] ‖ connection_id_LE ‖ out_size (LE u16) ‖ rand_len (LE u16)`
(built in `encrypt[0..16)` before encryption). -/
def authPlainBlock (t : Nat) (g : AuthGlobal) (out_size rand_len : Nat) :
    List Nat :=
  le32 t ++ g.local_client_id.take 4 ++ le32 g.connection_id ++
    le16 out_size ++ le16 rand_len

/-- The AES key of the auth chunk: `bytes_to_key_with_size` applied to
`base64(user_key) ‖ salt`, 16 bytes. -/
def authEncKey (env : AuthEnv) (salt userKey : List Nat) : List Nat :=
  env.btk (env.b64 userKey ++ salt) 16

/-- The 24-byte block placed at `out[7..31)`:
`uid(4) ‖ E(16) ‖ HMAC(key = iv‖server_key, msg = uid‖E)[0..4)` where `E`
is the AES-128-CBC encryption of the plaintext block. -/
def authEncrypt24 (env : AuthEnv) (srv : AuthSrv) (salt : List Nat)
    (uid userKey : List Nat) (t : Nat) (g : AuthGlobal)
    (out_size rand_len : Nat) : List Nat :=
  let E := env.aes (authPlainBlock t g out_size rand_len) (authEncKey env salt userKey)
  uid ++ E ++ (env.mac (srv.iv ++ srv.key) (uid ++ E)).take 4

/-- Result of `auth_aes128_sha1_pack_auth_data`: the produced bytes, the
updated plugin-global state, and the `uid` / `user_key` stored into the
local data. -/
structure AuthPackOut where
  out : List Nat
  g : AuthGlobal
  uid : List Nat
  userKey : List Nat
deriving Repr, DecidableEq

/-- Translation of `auth_aes128_sha1_pack_auth_data(global, server, local,
data, datalength, outdata)`.  Randomness parameters, in draw order:
`padA` for the `rand_len` padding bytes, `reseedCid`/`reseedConn` for the
re-seeding branch, `rndUid` for the fallback uid, `b0` for
`rand_bytes(outdata, 1)`; `r` is the `xorshift128plus()` draw and `t` the
`time(NULL)` value (as `u32`). `uk0`/`uid0` are the incoming
`local->user_key` / `local->uid`. -/
def auth_aes128_sha1_pack_auth_data (env : AuthEnv) (srv : AuthSrv)
    (salt : List Nat) (g : AuthGlobal) (uk0 : Option (List Nat))
    (uid0 : List Nat) (r t : Nat) (padA : Nat → Nat)
    (reseedCid : List Nat) (reseedConn : Nat) (rndUid : List Nat)
    (b0 : Nat) (data : List Nat) : AuthPackOut :=
  let n := data.length
  -- rand_len = (datalength > 400 ? xorshift() & 0x1FF : xorshift() & 0x3FF)
  let rand_len := if 400 < n then r % 512 else r % 1024
  let data_offset := rand_len + 16 + 4 + 4 + 7
  let out_size := data_offset + n + 4
  let keyIV := srv.iv ++ srv.key
  let g' := auth_update_connection_id reseedCid reseedConn g
  let uk := match uk0 with
            | some k => (uid0, k)
            | none => resolveUserKey env srv rndUid
  let uid := uk.1
  let userKey := uk.2
  let enc24 := authEncrypt24 env srv salt uid userKey t g' out_size rand_len
  -- out_buffer comes from `calloc` in the caller, hence the zero fill
  let c0 := List.replicate out_size 0
  -- rand_bytes(rnd_data, rand_len); memcpy(outdata + data_offset - rand_len, ...)
  let c1 := writeAt c0 (data_offset - rand_len) (randList padA rand_len)
  -- rand_bytes((uint8_t*)outdata, 1);
  let c2 := writeAt c1 0 [b0 % 256]
  -- local->hmac(hash, outdata, 1, key, key_len); memcpy(outdata + 1, hash, 6);
  let c3 := writeAt c2 1 ((env.mac keyIV [b0 % 256]).take 6)
  -- memcpy(outdata + 7, encrypt, 24);
  let c4 := writeAt c3 7 enc24
  -- memcpy(outdata + data_offset, data, datalength);
  let c5 := writeAt c4 data_offset data
  -- local->hmac(hash, outdata, out_size - 4, user_key, user_key_len);
  let c6 := writeAt c5 (out_size - 4) ((env.mac userKey (c5.take (out_size - 4))).take 4)
  ⟨c6, g', uid, userKey⟩

/-- The byte layout of the auth chunk, in concatenated form (proved equal
to the `writeAt` sequence of `auth_aes128_sha1_pack_auth_data`):
one random byte, 6 HMAC bytes, the 24-byte id/crypto block, `rand_len`
padding bytes, the payload, and the trailing 4-byte HMAC over everything
before it. -/
def authChunkShape (env : AuthEnv) (srv : AuthSrv) (salt : List Nat)
    (uid userKey : List Nat) (t : Nat) (g' : AuthGlobal)
    (rand_len : Nat) (padA : Nat → Nat) (b0 : Nat) (data : List Nat) :
    List Nat :=
  let out_size := rand_len + 31 + data.length + 4
  let keyIV := srv.iv ++ srv.key
  let body := [b0 % 256] ++ (env.mac keyIV [b0 % 256]).take 6 ++
    authEncrypt24 env srv salt uid userKey t g' out_size rand_len ++
    randList padA rand_len ++ data
  body ++ (env.mac userKey body).take 4

/-- The `while (len > auth_simple_pack_unit_size) … if (len > 0) …` loop of
`auth_aes128_sha1_client_pre_encrypt`, producing the list of non-initial
chunks.  `rs i` / `pads i` are the PRNG draws of the `i`-th iteration;
the structural `fuel` is called with `data.length`, enough since every
iteration consumes `auth_simple_pack_unit_size` bytes. -/
def packLoop (mac : List Nat → List Nat → List Nat) (userKey : List Nat)
    (lastDataLen bufferSize fulldatalength : Nat) :
    Nat → (Nat → Nat) → (Nat → Nat → Nat) → Nat → List Nat → List (List Nat)
  | 0, _, _, _, _ => []
  | fuel + 1, rs, pads, packId, data =>
    if auth_simple_pack_unit_size < data.length then
      auth_aes128_sha1_pack_data mac userKey packId lastDataLen bufferSize
          (rs 0) (pads 0) (data.take auth_simple_pack_unit_size) fulldatalength ::
        packLoop mac userKey lastDataLen bufferSize fulldatalength fuel
          (fun i => rs (i + 1)) (fun i => pads (i + 1)) (packId + 1)
          (data.drop auth_simple_pack_unit_size)
    else if 0 < data.length then
      [auth_aes128_sha1_pack_data mac userKey packId lastDataLen bufferSize
          (rs 0) (pads 0) data fulldatalength]
    else []

/-- Result of `client_pre_encrypt`: the emitted chunks (their
concatenation is the bytes returned to the caller), the updated
plugin-global state and the updated local data. -/
structure PreOut where
  chunks : List (List Nat)
  g : AuthGlobal
  loc : AuthLocal
deriving Repr, DecidableEq

/-- Translation of `auth_aes128_sha1_client_pre_encrypt(obfs, pplaindata,
datalength, capacity)`.  On the first non-empty call the head
(`min 1200 |data|` bytes) is packed with `pack_auth_data`, the rest by
the `packLoop`; `last_data_len` is set to `|data|` at the end. -/
def auth_aes128_sha1_client_pre_encrypt (env : AuthEnv) (srv : AuthSrv)
    (salt : List Nat) (g : AuthGlobal) (loc : AuthLocal)
    (r t : Nat) (padA : Nat → Nat) (reseedCid : List Nat) (reseedConn : Nat)
    (rndUid : List Nat) (b0 : Nat) (rs : Nat → Nat) (pads : Nat → Nat → Nat)
    (data : List Nat) : PreOut :=
  if 0 < data.length ∧ loc.has_sent_header = false then
    let head_size := min 1200 data.length
    let a := auth_aes128_sha1_pack_auth_data env srv salt g loc.user_key
        loc.uid r t padA reseedCid reseedConn rndUid b0 (data.take head_size)
    let rest := data.drop head_size
    let chunks := packLoop env.mac a.userKey loc.last_data_len srv.bufferSize
        data.length rest.length rs pads loc.pack_id rest
    ⟨a.out :: chunks, a.g,
      { has_sent_header := true, pack_id := loc.pack_id + chunks.length,
        user_key := some a.userKey, uid := a.uid, last_data_len := data.length }⟩
  else
    let uk := loc.user_key.getD []
    let chunks := packLoop env.mac uk loc.last_data_len srv.bufferSize
        data.length data.length rs pads loc.pack_id data
    ⟨chunks, g,
      { loc with pack_id := loc.pack_id + chunks.length,
                 last_data_len := data.length }⟩

/-- Result of the receive loop of `client_post_decrypt`: `ok = false`
means the error paths that set `recv_buffer->len = 0` and return `-1`;
`out` is the plaintext written to `out_buffer`, `buf` the remaining
`recv_buffer` content and `rid` the final `recv_id`. -/
structure PDOut where
  ok : Bool
  out : List Nat
  buf : List Nat
  rid : Nat
deriving Repr, DecidableEq

/-- The `while (local->recv_buffer->len > 4)` loop of
`auth_aes128_sha1_client_post_decrypt`.  Each iteration checks the 2-byte
HMAC of the length field (key `user_key ‖ recv_id LE`), parses the
little-endian length, checks `8 ≤ length < 8192`, waits for a complete
frame, checks the trailing 4-byte HMAC, then strips the marker/padding
and emits the payload.  The structural `fuel` is called with the buffer
length, enough since every iteration consumes `length ≥ 8` bytes. -/
def pdLoop (mac : List Nat → List Nat → List Nat) (userKey : List Nat) :
    Nat → List Nat → Nat → PDOut
  | 0, buf, rid => ⟨true, [], buf, rid⟩
  | fuel + 1, buf, rid =>
    if 4 < buf.length then
      let key := userKey ++ le32 rid
      if (mac key (buf.take 2)).take 2 = (buf.drop 2).take 2 then
        let flen := readLE16 buf
        if 8 ≤ flen ∧ flen < 8192 then
          if flen ≤ buf.length then
            if (mac key (buf.take (flen - 4))).take 4 = ((buf.drop (flen - 4)).take 4) then
              let pos := if buf.getD 4 0 < 255 then buf.getD 4 0 + 4
                         else 256 * buf.getD 6 0 + buf.getD 5 0 + 4
              let data_size := flen - pos - 4
              let rec0 := pdLoop mac userKey fuel (buf.drop flen) (rid + 1)
              if rec0.ok then
                ⟨true, (buf.drop pos).take data_size ++ rec0.out, rec0.buf, rec0.rid⟩
              else rec0
            else ⟨false, [], [], rid⟩
          else ⟨true, [], buf, rid⟩
        else ⟨false, [], [], rid⟩
      else ⟨false, [], [], rid⟩
    else ⟨true, [], buf, rid⟩

/-- The receive-side state of `auth_simple_local_data`: `recv_buffer` and
`recv_id`. -/
structure RecvState where
  buf : List Nat
  recv_id : Nat
deriving Repr, DecidableEq

/-- Translation of `auth_aes128_sha1_client_post_decrypt(obfs, pplaindata,
datalength, capacity)`: reject inputs that would overflow the 16384-byte
`recv_buffer` (without appending), otherwise append and run the receive
loop.  `none` models the `-1` return. -/
def auth_aes128_sha1_client_post_decrypt
    (mac : List Nat → List Nat → List Nat) (userKey : List Nat)
    (st : RecvState) (input : List Nat) : Option (List Nat) × RecvState :=
  if 16384 < st.buf.length + input.length then (none, st)
  else
    let buf := st.buf ++ input
    let r := pdLoop mac userKey buf.length buf st.recv_id
    if r.ok then (some r.out, ⟨r.buf, r.rid⟩) else (none, ⟨r.buf, r.rid⟩)

/-- Repeated calls of `client_post_decrypt` on a list of received pieces
(the reassembly of the stream at arbitrary chunk boundaries),
concatenating the emitted plaintext and threading the receive state. -/
def postDecryptAll (mac : List Nat → List Nat → List Nat)
    (userKey : List Nat) (st : RecvState) :
    List (List Nat) → Option (List Nat) × RecvState
  | [] => (some [], st)
  | x :: xs =>
    match auth_aes128_sha1_client_post_decrypt mac userKey st x with
    | (none, st') => (none, st')
    | (some out, st') =>
      match postDecryptAll mac userKey st' xs with
      | (none, st'') => (none, st'')
      | (some rest, st'') => (some (out ++ rest), st'')

/-- Abstract shape of one non-initial frame on the wire, as produced by
`auth_aes128_sha1_pack_data`: length field, 2-byte HMAC of it, the
random-length marker, the surviving padding bytes, the payload, and the
trailing 4-byte HMAC. -/
def mkFrame (mac : List Nat → List Nat → List Nat) (userKey : List Nat)
    (packId rand_len : Nat) (padTail data : List Nat) : List Nat :=
  let s := rand_len + data.length + 8
  let key := userKey ++ le32 packId
  let posB := if rand_len < 128 then [rand_len]
              else [255, rand_len % 256, rand_len / 256 % 256]
  let body := le16 s ++ (mac key (le16 s)).take 2 ++ posB ++ padTail ++ data
  body ++ (mac key body).take 4

/-- Well-formedness of a frame shape: the bounds guaranteed by
`get_rand_len` and the pre-encrypt loop. -/
def FrameOK (rand_len : Nat) (padTail data : List Nat) : Prop :=
  1 ≤ rand_len ∧ rand_len ≤ 1024 ∧
    padTail.length = rand_len - (if rand_len < 128 then 1 else 3) ∧
    1 ≤ data.length ∧ rand_len + data.length + 8 < 8192

/-- Data of one frame of a wire stream. -/
structure FrameSpec where
  rand_len : Nat
  padTail : List Nat
  data : List Nat
deriving Repr, DecidableEq

/-- The frames of a stream, with `pack_id` increasing from `id`. -/
def framesList (mac : List Nat → List Nat → List Nat) (userKey : List Nat) :
    Nat → List FrameSpec → List (List Nat)
  | _, [] => []
  | id, f :: L => mkFrame mac userKey id f.rand_len f.padTail f.data ::
      framesList mac userKey (id + 1) L

/-- The concatenated payloads of a list of frames. -/
def framesPayload : List FrameSpec → List Nat
  | [] => []
  | f :: L => f.data ++ framesPayload L

/-- Every frame of the list is well formed. -/
def FramesOK (L : List FrameSpec) : Prop :=
  ∀ f ∈ L, FrameOK f.rand_len f.padTail f.data

/-- The frame data produced by `packLoop`, mirroring its recursion. -/
def loopSpecs (lastDataLen bufferSize fulldatalength : Nat) :
    Nat → (Nat → Nat) → (Nat → Nat → Nat) → List Nat → List FrameSpec
  | 0, _, _, _ => []
  | fuel + 1, rs, pads, data =>
    if auth_simple_pack_unit_size < data.length then
      let rl := get_rand_len auth_simple_pack_unit_size fulldatalength
          lastDataLen bufferSize (rs 0) + 1
      ⟨rl, (randList (pads 0) rl).drop (if rl < 128 then 1 else 3),
          data.take auth_simple_pack_unit_size⟩ ::
        loopSpecs lastDataLen bufferSize fulldatalength fuel
          (fun i => rs (i + 1)) (fun i => pads (i + 1))
          (data.drop auth_simple_pack_unit_size)
    else if 0 < data.length then
      let rl := get_rand_len data.length fulldatalength lastDataLen bufferSize (rs 0) + 1
      [⟨rl, (randList (pads 0) rl).drop (if rl < 128 then 1 else 3), data⟩]
    else []

/-- Translation of `auth_aes128_sha1_client_udp_post_decrypt(obfs,
pplaindata, datalength, capacity)`: inputs of length at most 4 and
inputs whose trailing 4 bytes do not match the server-key HMAC of the
rest both give a `0` return; otherwise the return is `datalength - 4`.
The second component is the (never rewritten) buffer content. -/
def auth_aes128_sha1_client_udp_post_decrypt
    (mac : List Nat → List Nat → List Nat) (serverKey : List Nat)
    (input : List Nat) : Int × List Nat :=
  if input.length ≤ 4 then (0, input)
  else if (mac serverKey (input.take (input.length - 4))).take 4 =
      (input.drop (input.length - 4)).take 4 then
    ((input.length : Int) - 4, input)
  else (0, input)

/-- `auth_aes128_sha1_get_overhead` returns `9`. -/
def auth_aes128_sha1_get_overhead : Nat := 9

/-- The `server_info_t` fields whose population `tunnel_cipher_create`
decides per plugin instance. -/
structure ServerInfoM where
  tcp_mss : Nat
  buffer_size : Nat
  overhead : Nat
  param : Option (List Nat)
deriving Repr, DecidableEq

/-- Translation of the plugin part of `tunnel_cipher_create`: the struct
starts zeroed, gets `tcp_mss = 1452` and `buffer_size = SSR_BUFF_SIZE`,
is handed to the obfs instance with the obfs param (overhead still `0`),
and only then gets `overhead = p_len + o_len` before being handed to the
protocol instance with the protocol param.  A plugin is described by its
`get_overhead` value (`none` = absent plugin); the result is the pair of
`server_info` values received by (obfs instance, protocol instance). -/
def tunnel_cipher_create (ssrBuffSize : Nat)
    (obfsOverhead protocolOverhead : Option Nat)
    (obfsParam protocolParam : Option (List Nat)) :
    Option ServerInfoM × Option ServerInfoM :=
  let base : ServerInfoM :=
    { tcp_mss := 1452, buffer_size := ssrBuffSize, overhead := 0, param := none }
  let obfsGiven := obfsOverhead.map (fun _ => { base with param := obfsParam })
  let protocolGiven := protocolOverhead.map (fun p_len =>
    let o_len := obfsOverhead.getD 0
    { base with param := protocolParam, overhead := p_len + o_len })
  (obfsGiven, protocolGiven)

/-- The states of the tunnel session state machine. -/
inductive SState where
  | handshake | handshake_auth | req_start | req_parse | req_udp_assoc
  | req_lookup | req_connect | ssr_auth_sent | proxy_start | proxy
  | kill | dead
deriving Repr, DecidableEq

/-- The tunnel fields the `do_req_lookup` / `do_req_connect` handlers
touch: the session state, the last result on the outgoing socket, the
byte sequences written to the incoming (client) and outgoing sockets,
the `can_access` ruleset verdict, the `socket_connect` error flag and
the destination port to install after a lookup. -/
structure TunnelM where
  state : SState
  outgoing_result : Int
  incoming_writes : List (List Nat)
  outgoing_writes : List (List Nat)
  can_access : Bool
  connect_err : Bool
  outgoing_port : Option Nat
  dport : Nat
deriving Repr, DecidableEq

/-- Translation of `do_req_connect_start`: ruleset rejection writes the
`05 02` reply and kills; a failing `socket_connect` shuts the tunnel
down; otherwise the state becomes `req_connect`. -/
def do_req_connect_start (t : TunnelM) : TunnelM :=
  if t.can_access = false then
    { t with incoming_writes := t.incoming_writes ++ [[5, 2, 0, 1, 0, 0, 0, 0, 0, 0]],
             state := SState.kill }
  else if t.connect_err then { t with state := SState.dead }
  else { t with state := SState.req_connect }

/-- Translation of `do_req_lookup`: a negative resolver result writes the
`05 04` (host unreachable) reply to the client and kills; otherwise the
resolved address's port is set and `do_req_connect_start` runs. -/
def do_req_lookup (t : TunnelM) : TunnelM :=
  if t.outgoing_result < 0 then
    { t with incoming_writes := t.incoming_writes ++ [[5, 4, 0, 1, 0, 0, 0, 0, 0, 0]],
             state := SState.kill }
  else
    do_req_connect_start { t with outgoing_port := some t.dport }

/-- Translation of `do_req_connect`: a zero connect result encrypts the
cloned `init_package` (here: `encOk`/`encBytes` stand for the
`tunnel_encrypt` outcome), writes it to the outgoing socket and moves to
`ssr_auth_sent`; a non-zero result writes the `05 05` (connection
refused) reply to the client and kills. -/
def do_req_connect (t : TunnelM) (encOk : Bool) (encBytes : List Nat) : TunnelM :=
  if t.outgoing_result = 0 then
    if encOk then
      { t with outgoing_writes := t.outgoing_writes ++ [encBytes],
               state := SState.ssr_auth_sent }
    else { t with state := SState.dead }
  else
    { t with incoming_writes := t.incoming_writes ++ [[5, 5, 0, 1, 0, 0, 0, 0, 0, 0]],
             state := SState.kill }

/-- A concrete HMAC instantiation for counterexamples: the all-zero
20-byte digest. -/
def mac0 : List Nat → List Nat → List Nat := fun _ _ => List.replicate 20 0

/-- A concrete crypto environment for counterexamples: every primitive
returns zeros of the right size. -/
def env0 : AuthEnv :=
  { mac := mac0, hashF := fun _ => List.replicate 20 0, hashLen := 20,
    aes := fun _ _ => List.replicate 16 0, b64 := fun _ => [],
    btk := fun _ n => List.replicate n 0 }

/-- A concrete server info for counterexamples. -/
def srv0 : AuthSrv := { iv := [], key := [0], param := none, bufferSize := 2048 }

/-- A concrete plugin-global state for counterexamples. -/
def g0 : AuthGlobal := { local_client_id := List.replicate 8 0, connection_id := 1 }

/-- A fresh local data for counterexamples (`auth_simple_local_data_init`
with the md5/sha1 bindings; `last_data_len` is left-over memory, taken 0). -/
def loc0 : AuthLocal :=
  { has_sent_header := false, pack_id := 1, user_key := none,
    uid := [0, 0, 0, 0], last_data_len := 0 }

/-- The all-zero byte source for counterexamples. -/
def zf : Nat → Nat := fun _ => 0

/-- The all-zero indexed byte source for counterexamples. -/
def zf2 : Nat → Nat → Nat := fun _ _ => 0

/-! ### Basic lemmas about the byte-buffer primitives -/

theorem length_randList (pad : Nat → Nat) (k : Nat) :
    (randList pad k).length = k := by
  simp [randList]

theorem writeAt_eq {X Y Z : List Nat} (S : List Nat) (hY : Y.length = S.length) :
    writeAt (X ++ (Y ++ Z)) X.length S = X ++ (S ++ Z) := by
  unfold writeAt
  have h1 : (X ++ (Y ++ Z)).take X.length = X := List.take_left X (Y ++ Z)
  have h2 : (X ++ (Y ++ Z)).drop (X.length + S.length) = Z := by
    rw [show X ++ (Y ++ Z) = (X ++ Y) ++ Z from (List.append_assoc X Y Z).symm]
    exact List.drop_left' (by simp [hY])
  rw [h1, h2, List.append_assoc]

theorem writeAt_eq' {X Y Z : List Nat} (S : List Nat) (off : Nat)
    (hX : X.length = off) (hY : Y.length = S.length) :
    writeAt (X ++ (Y ++ Z)) off S = X ++ (S ++ Z) := by
  subst hX; exact writeAt_eq S hY

theorem le16_length (v : Nat) : (le16 v).length = 2 := rfl

theorem le32_length (v : Nat) : (le32 v).length = 4 := rfl

theorem readLE16_le16 {v : Nat} (h : v < 65536) : readLE16 (le16 v ++ l) = v := by
  simp only [readLE16, le16]
  have : ([v % 256, v / 256 % 256] ++ l).getD 0 0 = v % 256 := rfl
  have : ([v % 256, v / 256 % 256] ++ l).getD 1 0 = v / 256 % 256 := rfl
  simp only [List.cons_append, List.getD_cons_zero, List.getD_cons_succ]
  omega

theorem get_rand_len_le (datalength fulldatalength lastDataLen bufferSize r : Nat) :
    get_rand_len datalength fulldatalength lastDataLen bufferSize r ≤ 1023 := by
  unfold get_rand_len
  split
  · omega
  · split
    · exact Nat.le_trans (Nat.le_of_lt_succ (Nat.mod_lt _ (by omega))) (by omega)
    · split
      · exact Nat.le_trans (Nat.le_of_lt_succ (Nat.mod_lt _ (by omega))) (by omega)
      · split
        · exact Nat.le_trans (Nat.le_of_lt_succ (Nat.mod_lt _ (by omega))) (by omega)
        · exact Nat.le_of_lt_succ (Nat.mod_lt _ (by omega))

/-! ### Closed form of `pack_data_core` -/

theorem pack_data_core_eq (mac : List Nat → List Nat → List Nat)
    (userKey : List Nat) (packId rand_len : Nat) (pad : Nat → Nat)
    (data : List Nat) (h1 : 1 ≤ rand_len)
    (Hm : ∀ k m, 4 ≤ (mac k m).length) :
    pack_data_core mac userKey packId rand_len pad data =
      mkFrame mac userKey packId rand_len
        ((randList pad rand_len).drop (if rand_len < 128 then 1 else 3)) data := by
  simp only [pack_data_core, mkFrame]
  set n := data.length with hn
  set s := rand_len + n + 8 with hs
  set key := userKey ++ le32 packId with hkey
  set lo := s % 256 with hlo
  set hi := s / 256 % 256 with hhi
  have hle : le16 s = [lo, hi] := rfl
  rw [hle]
  generalize hRg : randList pad rand_len = R
  have hRlen : R.length = rand_len := by rw [← hRg]; exact length_randList pad rand_len
  -- step 1 : the payload copy lands between the zeroed pad area and tag area
  have hb1 : writeAt (List.replicate s 0) (rand_len + 4) data =
      List.replicate (rand_len + 4) 0 ++ (data ++ List.replicate 4 0) := by
    have hsplit : List.replicate s (0 : Nat) =
        List.replicate (rand_len + 4) 0 ++
          (List.replicate n 0 ++ List.replicate 4 0) := by
      rw [← List.replicate_add, ← List.replicate_add]
      congr 1
      omega
    rw [hsplit]
    exact writeAt_eq' data (rand_len + 4) (by simp) (by simp)
  rw [hb1]
  -- step 2 : outdata[0]
  have hb2 : writeAt (List.replicate (rand_len + 4) 0 ++ (data ++ List.replicate 4 0)) 0 [lo] =
      [lo] ++ (List.replicate (rand_len + 3) 0 ++ (data ++ List.replicate 4 0)) := by
    have hsplit : List.replicate (rand_len + 4) (0 : Nat) ++ (data ++ List.replicate 4 0) =
        ([] : List Nat) ++
          ([0] ++ (List.replicate (rand_len + 3) 0 ++ (data ++ List.replicate 4 0))) := by
      rw [show rand_len + 4 = 1 + (rand_len + 3) by omega, List.replicate_add]
      simp
    rw [hsplit]
    exact writeAt_eq' [lo] 0 rfl rfl
  rw [hb2]
  -- step 3 : outdata[1]
  have hb3 : writeAt ([lo] ++ (List.replicate (rand_len + 3) 0 ++ (data ++ List.replicate 4 0))) 1 [hi] =
      [lo, hi] ++ (List.replicate (rand_len + 2) 0 ++ (data ++ List.replicate 4 0)) := by
    have hsplit : [lo] ++ (List.replicate (rand_len + 3) (0 : Nat) ++ (data ++ List.replicate 4 0)) =
        [lo] ++ ([0] ++ (List.replicate (rand_len + 2) 0 ++ (data ++ List.replicate 4 0))) := by
      rw [show rand_len + 3 = 1 + (rand_len + 2) by omega, List.replicate_add]
      simp
    rw [hsplit]
    have h := @writeAt_eq' [lo] [0]
      (List.replicate (rand_len + 2) 0 ++ (data ++ List.replicate 4 0)) [hi] 1 rfl rfl
    rw [h]
    simp
  rw [hb3]
  -- step 4 : the random fill at offset 4
  have hb4 : writeAt ([lo, hi] ++ (List.replicate (rand_len + 2) 0 ++ (data ++ List.replicate 4 0))) 4 R =
      ([lo, hi] ++ List.replicate 2 0) ++ (R ++ (data ++ List.replicate 4 0)) := by
    have hsplit : [lo, hi] ++ (List.replicate (rand_len + 2) (0 : Nat) ++ (data ++ List.replicate 4 0)) =
        ([lo, hi] ++ List.replicate 2 0) ++
          (List.replicate rand_len 0 ++ (data ++ List.replicate 4 0)) := by
      rw [show rand_len + 2 = 2 + rand_len by omega, List.replicate_add]
      simp
    rw [hsplit]
    exact writeAt_eq' R 4 (by simp) (by simp [hRlen])
  rw [hb4]
  -- the 2-byte HMAC of the length field
  have htk2 : (([lo, hi] ++ List.replicate 2 0) ++ (R ++ (data ++ List.replicate 4 0))).take 2 =
      [lo, hi] := rfl
  rw [htk2]
  have hh2len : ((mac key [lo, hi]).take 2).length = 2 := by
    rw [List.length_take]
    exact Nat.min_eq_left (le_trans (by omega) (Hm key [lo, hi]))
  -- step 5 : write the 2-byte HMAC at offset 2
  have hb5 : writeAt (([lo, hi] ++ List.replicate 2 0) ++ (R ++ (data ++ List.replicate 4 0))) 2
      ((mac key [lo, hi]).take 2) =
      [lo, hi] ++ ((mac key [lo, hi]).take 2 ++ (R ++ (data ++ List.replicate 4 0))) := by
    have hsplit : ([lo, hi] ++ List.replicate 2 (0 : Nat)) ++ (R ++ (data ++ List.replicate 4 0)) =
        [lo, hi] ++ (List.replicate 2 0 ++ (R ++ (data ++ List.replicate 4 0))) := by
      simp
    rw [hsplit]
    exact writeAt_eq' _ 2 rfl (by simp [hh2len])
  rw [hb5]
  set h2 := (mac key [lo, hi]).take 2 with hh2
  by_cases hc : rand_len < 128
  · -- one marker byte
    simp only [if_pos hc]
    rcases R with _ | ⟨a, R1⟩
    · exfalso
      simp at hRlen
      omega
    have hR1len : R1.length = rand_len - 1 := by
      simp at hRlen
      omega
    have hb6 : writeAt ([lo, hi] ++ (h2 ++ ((a :: R1) ++ (data ++ List.replicate 4 0)))) 4
        [rand_len % 256] =
        ([lo, hi] ++ h2) ++ ([rand_len % 256] ++ (R1 ++ (data ++ List.replicate 4 0))) := by
      have hsplit : [lo, hi] ++ (h2 ++ ((a :: R1) ++ (data ++ List.replicate 4 0))) =
          ([lo, hi] ++ h2) ++ ([a] ++ (R1 ++ (data ++ List.replicate 4 0))) := by
        simp
      rw [hsplit]
      exact writeAt_eq' _ 4 (by simp [hh2len]) rfl
    rw [hb6]
    have hmod : rand_len % 256 = rand_len := Nat.mod_eq_of_lt (by omega)
    -- the body in front of the trailing tag
    have hbody : ([lo, hi] ++ h2) ++ ([rand_len % 256] ++ (R1 ++ (data ++ List.replicate 4 0))) =
        ([lo, hi] ++ (h2 ++ ([rand_len % 256] ++ (R1 ++ data)))) ++
          (List.replicate 4 0 ++ ([] : List Nat)) := by
      simp
    have hblen : ([lo, hi] ++ (h2 ++ ([rand_len % 256] ++ (R1 ++ data)))).length = s - 4 := by
      simp [hh2len, hR1len]
      omega
    have htkb : (([lo, hi] ++ h2) ++ ([rand_len % 256] ++ (R1 ++ (data ++ List.replicate 4 0)))).take (s - 4) =
        [lo, hi] ++ (h2 ++ ([rand_len % 256] ++ (R1 ++ data))) := by
      rw [hbody]
      exact List.take_left' hblen
    rw [htkb]
    have hb7 : writeAt (([lo, hi] ++ h2) ++ ([rand_len % 256] ++ (R1 ++ (data ++ List.replicate 4 0))))
        (s - 4) ((mac key ([lo, hi] ++ (h2 ++ ([rand_len % 256] ++ (R1 ++ data))))).take 4) =
        ([lo, hi] ++ (h2 ++ ([rand_len % 256] ++ (R1 ++ data)))) ++
          ((mac key ([lo, hi] ++ (h2 ++ ([rand_len % 256] ++ (R1 ++ data))))).take 4 ++ []) := by
      rw [hbody]
      refine writeAt_eq' _ (s - 4) hblen ?_
      rw [List.length_take]
      simp [Nat.min_eq_left (Hm key _)]
    rw [hb7, hmod]
    simp [List.append_assoc]
  · -- 0xFF marker plus little-endian length
    simp only [if_neg hc]
    rcases R with _ | ⟨a, R1⟩
    · exfalso
      simp at hRlen
      omega
    rcases R1 with _ | ⟨b, R2⟩
    · exfalso
      simp at hRlen
      omega
    rcases R2 with _ | ⟨c, R3⟩
    · exfalso
      simp at hRlen
      omega
    have hR3len : R3.length = rand_len - 3 := by
      simp at hRlen
      omega
    have hw1 : writeAt ([lo, hi] ++ (h2 ++ ((a :: b :: c :: R3) ++ (data ++ List.replicate 4 0)))) 4
        [255] =
        ([lo, hi] ++ h2) ++ ([255] ++ ((b :: c :: R3) ++ (data ++ List.replicate 4 0))) := by
      have hsplit : [lo, hi] ++ (h2 ++ ((a :: b :: c :: R3) ++ (data ++ List.replicate 4 0))) =
          ([lo, hi] ++ h2) ++ ([a] ++ ((b :: c :: R3) ++ (data ++ List.replicate 4 0))) := by
        simp
      rw [hsplit]
      exact writeAt_eq' _ 4 (by simp [hh2len]) rfl
    rw [hw1]
    have hw2 : writeAt (([lo, hi] ++ h2) ++ ([255] ++ ((b :: c :: R3) ++ (data ++ List.replicate 4 0)))) 5
        [rand_len % 256] =
        (([lo, hi] ++ h2) ++ [255]) ++
          ([rand_len % 256] ++ ((c :: R3) ++ (data ++ List.replicate 4 0))) := by
      have hsplit : ([lo, hi] ++ h2) ++ ([255] ++ ((b :: c :: R3) ++ (data ++ List.replicate 4 0))) =
          (([lo, hi] ++ h2) ++ [255]) ++ ([b] ++ ((c :: R3) ++ (data ++ List.replicate 4 0))) := by
        simp
      rw [hsplit]
      exact writeAt_eq' _ 5 (by simp [hh2len]) rfl
    rw [hw2]
    have hw3 : writeAt ((([lo, hi] ++ h2) ++ [255]) ++
        ([rand_len % 256] ++ ((c :: R3) ++ (data ++ List.replicate 4 0)))) 6
        [rand_len / 256 % 256] =
        ((([lo, hi] ++ h2) ++ [255]) ++ [rand_len % 256]) ++
          ([rand_len / 256 % 256] ++ (R3 ++ (data ++ List.replicate 4 0))) := by
      have hsplit : (([lo, hi] ++ h2) ++ [255]) ++
          ([rand_len % 256] ++ ((c :: R3) ++ (data ++ List.replicate 4 0))) =
          ((([lo, hi] ++ h2) ++ [255]) ++ [rand_len % 256]) ++
            ([c] ++ (R3 ++ (data ++ List.replicate 4 0))) := by
        simp
      rw [hsplit]
      exact writeAt_eq' _ 6 (by simp [hh2len]) rfl
    rw [hw3]
    have hbody : ((([lo, hi] ++ h2) ++ [255]) ++ [rand_len % 256]) ++
        ([rand_len / 256 % 256] ++ (R3 ++ (data ++ List.replicate 4 0))) =
        ([lo, hi] ++ (h2 ++ ([255] ++ ([rand_len % 256] ++ ([rand_len / 256 % 256] ++ (R3 ++ data)))))) ++
          (List.replicate 4 0 ++ ([] : List Nat)) := by
      simp
    have hblen : ([lo, hi] ++ (h2 ++ ([255] ++ ([rand_len % 256] ++
        ([rand_len / 256 % 256] ++ (R3 ++ data)))))).length = s - 4 := by
      simp [hh2len, hR3len]
      omega
    have htkb : (((([lo, hi] ++ h2) ++ [255]) ++ [rand_len % 256]) ++
        ([rand_len / 256 % 256] ++ (R3 ++ (data ++ List.replicate 4 0)))).take (s - 4) =
        [lo, hi] ++ (h2 ++ ([255] ++ ([rand_len % 256] ++ ([rand_len / 256 % 256] ++ (R3 ++ data))))) := by
      rw [hbody]
      exact List.take_left' hblen
    rw [htkb]
    have hb7 : writeAt (((([lo, hi] ++ h2) ++ [255]) ++ [rand_len % 256]) ++
        ([rand_len / 256 % 256] ++ (R3 ++ (data ++ List.replicate 4 0)))) (s - 4)
        ((mac key ([lo, hi] ++ (h2 ++ ([255] ++ ([rand_len % 256] ++
          ([rand_len / 256 % 256] ++ (R3 ++ data))))))).take 4) =
        ([lo, hi] ++ (h2 ++ ([255] ++ ([rand_len % 256] ++ ([rand_len / 256 % 256] ++ (R3 ++ data)))))) ++
          ((mac key ([lo, hi] ++ (h2 ++ ([255] ++ ([rand_len % 256] ++
            ([rand_len / 256 % 256] ++ (R3 ++ data))))))).take 4 ++ []) := by
      rw [hbody]
      refine writeAt_eq' _ (s - 4) hblen ?_
      rw [List.length_take]
      simp [Nat.min_eq_left (Hm key _)]
    rw [hb7]
    simp [List.append_assoc]

/-! ### Facts about the frame shape -/

theorem length_take_of_le {l : List Nat} {k : Nat} (h : k ≤ l.length) :
    (l.take k).length = k := by
  rw [List.length_take]
  exact Nat.min_eq_left h

theorem getD_append_lt (l l' : List Nat) (i d : Nat) (h : i < l.length) :
    (l ++ l').getD i d = l.getD i d := by
  simp [List.getD_eq_getElem?_getD, List.getElem?_append_left h]

theorem mkFrame_length (mac : List Nat → List Nat → List Nat)
    (userKey : List Nat) (packId rand_len : Nat) (padTail data : List Nat)
    (Hm : ∀ k m, 4 ≤ (mac k m).length)
    (hok : FrameOK rand_len padTail data) :
    (mkFrame mac userKey packId rand_len padTail data).length =
      rand_len + data.length + 8 := by
  obtain ⟨ho1, ho2, ho3, ho4, ho5⟩ := hok
  have h2l : ∀ m, ((mac (userKey ++ le32 packId) m).take 2).length = 2 := fun m =>
    length_take_of_le (le_trans (by omega) (Hm _ m))
  have h4l : ∀ m, ((mac (userKey ++ le32 packId) m).take 4).length = 4 := fun m =>
    length_take_of_le (Hm _ m)
  by_cases hc : rand_len < 128
  · rw [if_pos hc] at ho3
    simp only [mkFrame, if_pos hc]
    simp [h2l, h4l, le16]
    omega
  · rw [if_neg hc] at ho3
    simp only [mkFrame, if_neg hc]
    simp [h2l, h4l, le16]
    omega

theorem pdLoop_fuel (mac : List Nat → List Nat → List Nat) (userKey : List Nat) :
    ∀ f₁ f₂ buf rid, buf.length ≤ f₁ → buf.length ≤ f₂ →
      pdLoop mac userKey f₁ buf rid = pdLoop mac userKey f₂ buf rid := by
  intro f₁
  induction f₁ using Nat.strong_induction_on with
  | _ f₁ ih =>
    intro f₂ buf rid h1 h2
    rcases f₁ with _ | f₁ <;> rcases f₂ with _ | f₂
    · rfl
    · have hbuf : buf = [] := List.eq_nil_of_length_eq_zero (by omega)
      subst hbuf
      simp [pdLoop]
    · have hbuf : buf = [] := List.eq_nil_of_length_eq_zero (by omega)
      subst hbuf
      simp [pdLoop]
    · simp only [pdLoop]
      by_cases hb : 4 < buf.length
      · simp only [if_pos hb]
        by_cases hmac : (mac (userKey ++ le32 rid) (buf.take 2)).take 2 = (buf.drop 2).take 2
        · simp only [if_pos hmac]
          by_cases hflen : 8 ≤ readLE16 buf ∧ readLE16 buf < 8192
          · simp only [if_pos hflen]
            by_cases hfit : readLE16 buf ≤ buf.length
            · simp only [if_pos hfit]
              by_cases htag : (mac (userKey ++ le32 rid) (buf.take (readLE16 buf - 4))).take 4 =
                  (buf.drop (readLE16 buf - 4)).take 4
              · simp only [if_pos htag]
                have hrec : pdLoop mac userKey f₁ (buf.drop (readLE16 buf)) (rid + 1) =
                    pdLoop mac userKey f₂ (buf.drop (readLE16 buf)) (rid + 1) := by
                  apply ih f₁ (by omega) f₂
                  · simp
                    omega
                  · simp
                    omega
                rw [hrec]
              · simp only [if_neg htag]
            · simp only [if_neg hfit]
          · simp only [if_neg hflen]
        · simp only [if_neg hmac]
      · simp only [if_neg hb]

theorem pdLoop_cons_frame (mac : List Nat → List Nat → List Nat)
    (userKey : List Nat) (id rand_len : Nat) (padTail data rest : List Nat)
    (fuel : Nat) (Hm : ∀ k m, 4 ≤ (mac k m).length)
    (hok : FrameOK rand_len padTail data)
    (hfuel : (mkFrame mac userKey id rand_len padTail data ++ rest).length ≤ fuel) :
    pdLoop mac userKey fuel (mkFrame mac userKey id rand_len padTail data ++ rest) id =
      (if (pdLoop mac userKey rest.length rest (id + 1)).ok then
        ⟨true, data ++ (pdLoop mac userKey rest.length rest (id + 1)).out,
          (pdLoop mac userKey rest.length rest (id + 1)).buf,
          (pdLoop mac userKey rest.length rest (id + 1)).rid⟩
      else pdLoop mac userKey rest.length rest (id + 1)) := by
  have hFlen : (mkFrame mac userKey id rand_len padTail data).length =
      rand_len + data.length + 8 := mkFrame_length mac userKey id rand_len padTail data Hm hok
  obtain ⟨ho1, ho2, ho3, ho4, ho5⟩ := hok
  set s := rand_len + data.length + 8 with hs
  have h2len : ((mac (userKey ++ le32 id) (le16 s)).take 2).length = 2 :=
    length_take_of_le (le_trans (by omega) (Hm _ _))
  obtain ⟨x2, x3, hx⟩ := List.length_eq_two.mp h2len
  have htaglen : ∀ m, ((mac (userKey ++ le32 id) m).take 4).length = 4 := fun m =>
    length_take_of_le (Hm _ m)
  -- the frame in concatenated normal form
  have hF0 : mkFrame mac userKey id rand_len padTail data =
      (le16 s ++ (mac (userKey ++ le32 id) (le16 s)).take 2 ++
        (if rand_len < 128 then [rand_len] else [255, rand_len % 256, rand_len / 256 % 256]) ++
        padTail ++ data) ++
      (mac (userKey ++ le32 id)
        (le16 s ++ (mac (userKey ++ le32 id) (le16 s)).take 2 ++
          (if rand_len < 128 then [rand_len] else [255, rand_len % 256, rand_len / 256 % 256]) ++
          padTail ++ data)).take 4 := rfl
  set posB := (if rand_len < 128 then [rand_len]
    else [255, rand_len % 256, rand_len / 256 % 256]) with hposB
  set body := le16 s ++ (mac (userKey ++ le32 id) (le16 s)).take 2 ++ posB ++ padTail ++ data
    with hbody
  set tag := (mac (userKey ++ le32 id) body).take 4 with htag
  have hskle : posB.length = 1 ∨ (posB.length = 3 ∧ 128 ≤ rand_len) := by
    by_cases hc : rand_len < 128
    · left
      simp [hposB, hc]
    · right
      constructor
      · simp [hposB, hc]
      · omega
  have hptlen : padTail.length + posB.length = rand_len + 2 - 2 := by
    rcases hskle with h | ⟨h, h'⟩
    · have : padTail.length = rand_len - 1 := by
        rw [ho3, if_pos]
        by_contra hcc
        simp [hposB, if_neg (by omega : ¬ rand_len < 128)] at h
      omega
    · have : padTail.length = rand_len - 3 := by
        rw [ho3, if_neg (by omega : ¬ rand_len < 128)]
      omega
  have hbodylen : body.length = s - 4 := by
    rw [hbody]
    simp only [List.length_append, h2len, le16_length]
    omega
  have hnorm : mkFrame mac userKey id rand_len padTail data ++ rest =
      (s % 256) :: (s / 256 % 256) :: x2 :: x3 ::
        (posB ++ (padTail ++ (data ++ (tag ++ rest)))) := by
    rw [hF0, hbody, hx]
    simp [le16]
  have hlenFr : (mkFrame mac userKey id rand_len padTail data ++ rest).length =
      s + rest.length := by
    simp [hFlen]
  -- the conditions checked by the receive loop
  have t2 : (mkFrame mac userKey id rand_len padTail data ++ rest).take 2 = le16 s := by
    rw [hnorm]
    rfl
  have d2 : ((mkFrame mac userKey id rand_len padTail data ++ rest).drop 2).take 2 =
      (mac (userKey ++ le32 id) (le16 s)).take 2 := by
    rw [hnorm, hx]
    rfl
  have hr16 : readLE16 (mkFrame mac userKey id rand_len padTail data ++ rest) = s := by
    rw [hnorm]
    simp only [readLE16, List.getD_cons_zero, List.getD_cons_succ]
    omega
  have hbt : mkFrame mac userKey id rand_len padTail data ++ rest = body ++ (tag ++ rest) := by
    rw [hF0]
    simp
  have tb : (mkFrame mac userKey id rand_len padTail data ++ rest).take (s - 4) = body := by
    rw [hbt]
    exact List.take_left' hbodylen
  have db : ((mkFrame mac userKey id rand_len padTail data ++ rest).drop (s - 4)).take 4 = tag := by
    rw [hbt, List.drop_left' hbodylen]
    refine List.take_left' ?_
    rw [htag]
    exact htaglen body
  have t9 : (mkFrame mac userKey id rand_len padTail data ++ rest).drop s = rest := by
    rw [hbt, show body ++ (tag ++ rest) = (body ++ tag) ++ rest by simp]
    refine List.drop_left' ?_
    rw [List.length_append, hbodylen, htag, htaglen body]
    omega
  have t8 : ((mkFrame mac userKey id rand_len padTail data ++ rest).drop (rand_len + 4)).take
      data.length = data := by
    rw [hnorm]
    have hsplit : (s % 256) :: (s / 256 % 256) :: x2 :: x3 ::
        (posB ++ (padTail ++ (data ++ (tag ++ rest)))) =
        ((s % 256) :: (s / 256 % 256) :: x2 :: x3 :: (posB ++ padTail)) ++
          (data ++ (tag ++ rest)) := by
      simp
    rw [hsplit, List.drop_left' (by simp; omega), List.take_left' rfl]
  -- unfold one loop iteration
  rcases fuel with _ | fuel
  · exfalso
    rw [hlenFr] at hfuel
    omega
  simp only [pdLoop]
  rw [if_pos (by rw [hlenFr]; omega :
    4 < (mkFrame mac userKey id rand_len padTail data ++ rest).length)]
  rw [if_pos (by rw [t2, d2] :
    (mac (userKey ++ le32 id)
      ((mkFrame mac userKey id rand_len padTail data ++ rest).take 2)).take 2 =
      ((mkFrame mac userKey id rand_len padTail data ++ rest).drop 2).take 2)]
  rw [hr16]
  rw [if_pos (⟨by omega, ho5⟩ : 8 ≤ s ∧ s < 8192)]
  rw [if_pos (by rw [hlenFr]; omega :
    s ≤ (mkFrame mac userKey id rand_len padTail data ++ rest).length)]
  rw [if_pos (by rw [tb, db, ← htag] :
    (mac (userKey ++ le32 id)
      ((mkFrame mac userKey id rand_len padTail data ++ rest).take (s - 4))).take 4 =
      ((mkFrame mac userKey id rand_len padTail data ++ rest).drop (s - 4)).take 4)]
  -- reduce the data position
  have hpos : (if (mkFrame mac userKey id rand_len padTail data ++ rest).getD 4 0 < 255 then
      (mkFrame mac userKey id rand_len padTail data ++ rest).getD 4 0 + 4
      else 256 * (mkFrame mac userKey id rand_len padTail data ++ rest).getD 6 0 +
        (mkFrame mac userKey id rand_len padTail data ++ rest).getD 5 0 + 4) =
      rand_len + 4 := by
    by_cases hc : rand_len < 128
    · have g4 : (mkFrame mac userKey id rand_len padTail data ++ rest).getD 4 0 = rand_len := by
        rw [hnorm]
        simp only [List.getD_cons_succ]
        rw [hposB, if_pos hc]
        rfl
      rw [g4, if_pos (by omega : rand_len < 255)]
    · have hposBv : posB = [255, rand_len % 256, rand_len / 256 % 256] := by
        rw [hposB, if_neg hc]
      have g4 : (mkFrame mac userKey id rand_len padTail data ++ rest).getD 4 0 = 255 := by
        rw [hnorm, hposBv]
        rfl
      have g5 : (mkFrame mac userKey id rand_len padTail data ++ rest).getD 5 0 =
          rand_len % 256 := by
        rw [hnorm, hposBv]
        rfl
      have g6 : (mkFrame mac userKey id rand_len padTail data ++ rest).getD 6 0 =
          rand_len / 256 % 256 := by
        rw [hnorm, hposBv]
        rfl
      rw [g4, if_neg (by omega : ¬ (255 : Nat) < 255), g5, g6]
      omega
  rw [hpos]
  have hds : s - (rand_len + 4) - 4 = data.length := by omega
  rw [hds, t8, t9]
  have hfrec : pdLoop mac userKey fuel rest (id + 1) =
      pdLoop mac userKey rest.length rest (id + 1) := by
    refine pdLoop_fuel mac userKey fuel rest.length rest (id + 1) ?_ le_rfl
    rw [hlenFr] at hfuel
    omega
  rw [hfrec]

theorem mkFrame_norm (mac : List Nat → List Nat → List Nat)
    (userKey : List Nat) (id rand_len : Nat) (padTail data : List Nat)
    (Hm : ∀ k m, 4 ≤ (mac k m).length) :
    ∃ x2 x3 tail,
      (mac (userKey ++ le32 id) (le16 (rand_len + data.length + 8))).take 2 = [x2, x3] ∧
      mkFrame mac userKey id rand_len padTail data =
        ((rand_len + data.length + 8) % 256) :: ((rand_len + data.length + 8) / 256 % 256) ::
          x2 :: x3 :: tail := by
  set s := rand_len + data.length + 8 with hs
  have h2len : ((mac (userKey ++ le32 id) (le16 s)).take 2).length = 2 :=
    length_take_of_le (le_trans (by omega) (Hm _ _))
  obtain ⟨x2, x3, hx⟩ := List.length_eq_two.mp h2len
  refine ⟨x2, x3,
    (if rand_len < 128 then [rand_len] else [255, rand_len % 256, rand_len / 256 % 256]) ++
      (padTail ++ (data ++
        (mac (userKey ++ le32 id)
          (le16 s ++ (mac (userKey ++ le32 id) (le16 s)).take 2 ++
            (if rand_len < 128 then [rand_len] else [255, rand_len % 256, rand_len / 256 % 256]) ++
            padTail ++ data)).take 4)), hx, ?_⟩
  conv_lhs => rw [show mkFrame mac userKey id rand_len padTail data =
    (le16 s ++ (mac (userKey ++ le32 id) (le16 s)).take 2 ++
      (if rand_len < 128 then [rand_len] else [255, rand_len % 256, rand_len / 256 % 256]) ++
      padTail ++ data) ++
    (mac (userKey ++ le32 id)
      (le16 s ++ (mac (userKey ++ le32 id) (le16 s)).take 2 ++
        (if rand_len < 128 then [rand_len] else [255, rand_len % 256, rand_len / 256 % 256]) ++
        padTail ++ data)).take 4 from rfl]
  rw [hx]
  simp [le16]

theorem pdLoop_break (mac : List Nat → List Nat → List Nat)
    (userKey : List Nat) (id rand_len : Nat) (padTail data p q : List Nat)
    (fuel : Nat) (Hm : ∀ k m, 4 ≤ (mac k m).length)
    (hok : FrameOK rand_len padTail data)
    (hpq : p ++ q = mkFrame mac userKey id rand_len padTail data)
    (hlt : p.length < (mkFrame mac userKey id rand_len padTail data).length) :
    pdLoop mac userKey fuel p id = ⟨true, [], p, id⟩ := by
  rcases fuel with _ | fuel
  · rfl
  by_cases hb : 4 < p.length
  · obtain ⟨ho1, ho2, ho3, ho4, ho5⟩ := hok
    set s := rand_len + data.length + 8 with hs
    have hFlen : (mkFrame mac userKey id rand_len padTail data).length = s :=
      mkFrame_length mac userKey id rand_len padTail data Hm ⟨ho1, ho2, ho3, ho4, ho5⟩
    obtain ⟨x2, x3, tail, hx, hFn⟩ :=
      mkFrame_norm mac userKey id rand_len padTail data Hm
    -- the first four bytes of the partial buffer agree with the frame
    have ht2 : p.take 2 = le16 s := by
      have h := congrArg (List.take 2) hpq
      rw [List.take_append_of_le_length (by omega)] at h
      rw [h, hFn]
      rfl
    have hd2 : (p.drop 2).take 2 = [x2, x3] := by
      have h := congrArg (List.drop 2) hpq
      rw [List.drop_append_of_le_length (by omega)] at h
      have h' := congrArg (List.take 2) h
      rw [List.take_append_of_le_length (by simp; omega)] at h'
      rw [h', hFn]
      rfl
    have hr16 : readLE16 p = s := by
      have hg0 : p.getD 0 0 = s % 256 := by
        have h := getD_append_lt p q 0 0 (by omega)
        rw [hpq, hFn] at h
        exact h.symm
      have hg1 : p.getD 1 0 = s / 256 % 256 := by
        have h := getD_append_lt p q 1 0 (by omega)
        rw [hpq, hFn] at h
        exact h.symm
      rw [readLE16, hg0, hg1]
      omega
    simp only [pdLoop]
    rw [if_pos hb]
    rw [if_pos (by rw [ht2, hx, hd2] :
      (mac (userKey ++ le32 id) (p.take 2)).take 2 = (p.drop 2).take 2)]
    rw [hr16]
    rw [if_pos (⟨by omega, ho5⟩ : 8 ≤ s ∧ s < 8192)]
    rw [if_neg (by rw [hFlen] at hlt; omega : ¬ s ≤ p.length)]
  · simp only [pdLoop]
    rw [if_neg hb]

theorem pdLoop_stream (mac : List Nat → List Nat → List Nat) (userKey : List Nat)
    (Hm : ∀ k m, 4 ≤ (mac k m).length) :
    ∀ L id buf q fuel, FramesOK L →
      buf ++ q = (framesList mac userKey id L).flatten →
      buf.length ≤ fuel →
      ∃ j leftover,
        j ≤ L.length ∧
        pdLoop mac userKey fuel buf id =
          ⟨true, framesPayload (L.take j), leftover, id + j⟩ ∧
        (framesList mac userKey id (L.take j)).flatten ++ leftover = buf ∧
        (∃ q', leftover ++ q' = (framesList mac userKey (id + j) (L.drop j)).flatten) ∧
        (∀ f₁ L₂, L.drop j = f₁ :: L₂ →
          leftover.length < f₁.rand_len + f₁.data.length + 8) := by
  intro L
  induction L with
  | nil =>
    intro id buf q fuel _ hpq hfuel
    rw [show framesList mac userKey id [] = [] from rfl] at hpq
    simp only [List.flatten_nil] at hpq
    obtain ⟨hb, _⟩ := List.append_eq_nil.mp hpq
    subst hb
    refine ⟨0, [], by simp, ?_, by simp [framesList], ⟨[], by simp [framesList]⟩, by simp⟩
    rcases fuel with _ | fuel
    · rfl
    · simp [pdLoop, framesPayload]
  | cons f L ih =>
    intro id buf q fuel hok hpq hfuel
    have hokf : FrameOK f.rand_len f.padTail f.data := hok f (by simp)
    have hokL : FramesOK L := fun g hg => hok g (by simp [hg])
    have hFlen : (mkFrame mac userKey id f.rand_len f.padTail f.data).length =
        f.rand_len + f.data.length + 8 :=
      mkFrame_length mac userKey id f.rand_len f.padTail f.data Hm hokf
    have hpq' : buf ++ q = mkFrame mac userKey id f.rand_len f.padTail f.data ++
        (framesList mac userKey (id + 1) L).flatten := by
      rw [hpq]
      rfl
    by_cases hcase : (mkFrame mac userKey id f.rand_len f.padTail f.data).length ≤ buf.length
    · -- the first frame is complete in the buffer
      have htk : buf.take (mkFrame mac userKey id f.rand_len f.padTail f.data).length =
          mkFrame mac userKey id f.rand_len f.padTail f.data := by
        have h := congrArg
          (List.take (mkFrame mac userKey id f.rand_len f.padTail f.data).length) hpq'
        rw [List.take_append_of_le_length hcase, List.take_left] at h
        exact h
      have hbufsplit : buf = mkFrame mac userKey id f.rand_len f.padTail f.data ++
          buf.drop (mkFrame mac userKey id f.rand_len f.padTail f.data).length := by
        conv_lhs => rw [← List.take_append_drop
          (mkFrame mac userKey id f.rand_len f.padTail f.data).length buf]
        rw [htk]
      have hrest : buf.drop (mkFrame mac userKey id f.rand_len f.padTail f.data).length ++ q =
          (framesList mac userKey (id + 1) L).flatten := by
        apply @List.append_cancel_left Nat
          (mkFrame mac userKey id f.rand_len f.padTail f.data)
        rw [← List.append_assoc, ← hbufsplit]
        exact hpq'
      have hstep := pdLoop_cons_frame mac userKey id f.rand_len f.padTail f.data
        (buf.drop (mkFrame mac userKey id f.rand_len f.padTail f.data).length) fuel Hm hokf
        (by rw [← hbufsplit]; exact hfuel)
      obtain ⟨j, leftover, hj, hrec, hfl, hq', hprop⟩ :=
        ih (id + 1) (buf.drop (mkFrame mac userKey id f.rand_len f.padTail f.data).length) q
          (buf.drop (mkFrame mac userKey id f.rand_len f.padTail f.data).length).length
          hokL hrest le_rfl
      refine ⟨j + 1, leftover, by simp; omega, ?_, ?_, ?_, ?_⟩
      · rw [show pdLoop mac userKey fuel buf id =
            pdLoop mac userKey fuel (mkFrame mac userKey id f.rand_len f.padTail f.data ++
              buf.drop (mkFrame mac userKey id f.rand_len f.padTail f.data).length) id from by
            rw [← hbufsplit]]
        rw [hstep, hrec]
        simp [framesPayload]
        omega
      · rw [show (f :: L).take (j + 1) = f :: L.take j from rfl]
        rw [show framesList mac userKey id (f :: L.take j) =
          mkFrame mac userKey id f.rand_len f.padTail f.data ::
            framesList mac userKey (id + 1) (L.take j) from rfl]
        rw [List.flatten_cons, List.append_assoc, hfl, ← hbufsplit]
      · obtain ⟨q', hq'⟩ := hq'
        refine ⟨q', ?_⟩
        rw [show (f :: L).drop (j + 1) = L.drop j from rfl,
          show id + (j + 1) = id + 1 + j by omega]
        exact hq'
      · intro f₁ L₂ hd
        exact hprop f₁ L₂ (by simpa using hd)
    · -- only part of the first frame is buffered
      push_neg at hcase
      have htk : buf = (mkFrame mac userKey id f.rand_len f.padTail f.data).take buf.length := by
        have h := congrArg (List.take buf.length) hpq'
        rw [List.take_left, List.take_append_of_le_length (le_of_lt hcase)] at h
        exact h
      have hbq : buf ++ (mkFrame mac userKey id f.rand_len f.padTail f.data).drop buf.length =
          mkFrame mac userKey id f.rand_len f.padTail f.data := by
        nth_rewrite 1 [htk]
        exact List.take_append_drop buf.length _
      have hstep := pdLoop_break mac userKey id f.rand_len f.padTail f.data buf
        ((mkFrame mac userKey id f.rand_len f.padTail f.data).drop buf.length) fuel Hm hokf
        hbq hcase
      refine ⟨0, buf, Nat.zero_le _, ?_, by simp [framesList], ⟨q, by simpa [framesList]⟩, ?_⟩
      · rw [hstep]
        simp [framesPayload]
      · intro f₁ L₂ hd
        rw [List.drop_zero] at hd
        cases hd
        rw [← hFlen]
        exact hcase

theorem framesPayload_append (A B : List FrameSpec) :
    framesPayload (A ++ B) = framesPayload A ++ framesPayload B := by
  induction A with
  | nil => rfl
  | cons f A ih => simp [framesPayload, ih]

theorem framesPayload_take_drop (L : List FrameSpec) (j : Nat) :
    framesPayload (L.take j) ++ framesPayload (L.drop j) = framesPayload L := by
  rw [← framesPayload_append, List.take_append_drop]

theorem framesList_split (mac : List Nat → List Nat → List Nat) (userKey : List Nat) :
    ∀ L j id, j ≤ L.length →
      framesList mac userKey id L =
        framesList mac userKey id (L.take j) ++ framesList mac userKey (id + j) (L.drop j) := by
  intro L
  induction L with
  | nil =>
    intro j id hj
    simp at hj
    subst hj
    rfl
  | cons f L ih =>
    intro j id hj
    rcases j with _ | j
    · simp [framesList]
    · rw [show (f :: L).take (j + 1) = f :: L.take j from rfl,
        show (f :: L).drop (j + 1) = L.drop j from rfl]
      rw [show framesList mac userKey id (f :: L) =
        mkFrame mac userKey id f.rand_len f.padTail f.data ::
          framesList mac userKey (id + 1) L from rfl]
      rw [show framesList mac userKey id (f :: L.take j) =
        mkFrame mac userKey id f.rand_len f.padTail f.data ::
          framesList mac userKey (id + 1) (L.take j) from rfl]
      rw [ih j (id + 1) (by simpa using hj)]
      simp [show id + 1 + j = id + (j + 1) by omega]

theorem post_decrypt_stream (mac : List Nat → List Nat → List Nat) (userKey : List Nat)
    (Hm : ∀ k m, 4 ≤ (mac k m).length) (L : List FrameSpec) (id : Nat)
    (p x q : List Nat) (hok : FramesOK L)
    (hpxq : (p ++ x) ++ q = (framesList mac userKey id L).flatten)
    (hcap : p.length + x.length ≤ 16384) :
    ∃ j leftover, j ≤ L.length ∧
      auth_aes128_sha1_client_post_decrypt mac userKey ⟨p, id⟩ x =
        (some (framesPayload (L.take j)), ⟨leftover, id + j⟩) ∧
      (framesList mac userKey id (L.take j)).flatten ++ leftover = p ++ x ∧
      (∃ q', leftover ++ q' = (framesList mac userKey (id + j) (L.drop j)).flatten) ∧
      (∀ f₁ L₂, L.drop j = f₁ :: L₂ →
        leftover.length < f₁.rand_len + f₁.data.length + 8) := by
  obtain ⟨j, leftover, hj, hloop, hfl, hq', hprop⟩ :=
    pdLoop_stream mac userKey Hm L id (p ++ x) q (p ++ x).length hok hpxq le_rfl
  refine ⟨j, leftover, hj, ?_, hfl, hq', hprop⟩
  simp only [auth_aes128_sha1_client_post_decrypt]
  rw [if_neg (by simp; omega : ¬ 16384 < (⟨p, id⟩ : RecvState).buf.length + x.length)]
  have hbuf : (⟨p, id⟩ : RecvState).buf ++ x = p ++ x := rfl
  simp only [hbuf, show (⟨p, id⟩ : RecvState).recv_id = id from rfl, hloop]
  simp

theorem postDecryptAll_stream (mac : List Nat → List Nat → List Nat) (userKey : List Nat)
    (Hm : ∀ k m, 4 ≤ (mac k m).length) :
    ∀ pieces L id p, FramesOK L →
      p ++ pieces.flatten = (framesList mac userKey id L).flatten →
      (∀ f₁ L₂, L = f₁ :: L₂ → p.length < f₁.rand_len + f₁.data.length + 8) →
      (framesList mac userKey id L).flatten.length ≤ 16384 →
      postDecryptAll mac userKey ⟨p, id⟩ pieces =
        (some (framesPayload L), ⟨[], id + L.length⟩) := by
  intro pieces
  induction pieces with
  | nil =>
    intro L id p hok hpq hprop hcap
    rcases L with _ | ⟨f, L₂⟩
    · rw [show framesList mac userKey id [] = [] from rfl] at hpq
      simp at hpq
      subst hpq
      simp [postDecryptAll, framesPayload]
    · exfalso
      have hwl : (framesList mac userKey id (f :: L₂)).flatten.length =
          (mkFrame mac userKey id f.rand_len f.padTail f.data).length +
            (framesList mac userKey (id + 1) L₂).flatten.length := by
        rw [show framesList mac userKey id (f :: L₂) =
          mkFrame mac userKey id f.rand_len f.padTail f.data ::
            framesList mac userKey (id + 1) L₂ from rfl]
        simp
      have hFlen : (mkFrame mac userKey id f.rand_len f.padTail f.data).length =
          f.rand_len + f.data.length + 8 :=
        mkFrame_length mac userKey id f.rand_len f.padTail f.data Hm (hok f (by simp))
      have hplen := congrArg List.length hpq
      simp only [List.flatten_nil, List.length_append, List.length_nil] at hplen
      have := hprop f L₂ rfl
      omega
  | cons x xs ih =>
    intro L id p hok hpq hprop hcap
    have hx : (p ++ x) ++ xs.flatten = (framesList mac userKey id L).flatten := by
      rw [← hpq]
      simp
    have hcap1 : p.length + x.length ≤ 16384 := by
      have hlen := congrArg List.length hx
      simp only [List.length_append] at hlen
      omega
    obtain ⟨j, leftover, hj, hpost, hfl, -, hprop'⟩ :=
      post_decrypt_stream mac userKey Hm L id p x xs.flatten hok hx hcap1
    have hsplit := framesList_split mac userKey L j id hj
    have hrest : leftover ++ xs.flatten =
        (framesList mac userKey (id + j) (L.drop j)).flatten := by
      apply @List.append_cancel_left Nat ((framesList mac userKey id (L.take j)).flatten)
      rw [← List.append_assoc, hfl, hx, hsplit]
      simp
    have hcap2 : (framesList mac userKey (id + j) (L.drop j)).flatten.length ≤ 16384 := by
      have hlen2 : (framesList mac userKey id L).flatten.length =
          (framesList mac userKey id (L.take j)).flatten.length +
            (framesList mac userKey (id + j) (L.drop j)).flatten.length := by
        rw [hsplit, List.flatten_append, List.length_append]
      omega
    have hih := ih (L.drop j) (id + j) leftover
      (fun g hg => hok g (List.drop_subset j L hg)) hrest hprop' hcap2
    simp only [postDecryptAll, hpost, hih]
    rw [framesPayload_take_drop]
    have harith : id + j + (L.drop j).length = id + L.length := by
      simp
      omega
    rw [harith]

theorem packLoop_eq (mac : List Nat → List Nat → List Nat) (userKey : List Nat)
    (lastDataLen bufferSize fulldatalength : Nat)
    (Hm : ∀ k m, 4 ≤ (mac k m).length) :
    ∀ fuel rs pads packId data,
      packLoop mac userKey lastDataLen bufferSize fulldatalength fuel rs pads packId data =
        framesList mac userKey packId
          (loopSpecs lastDataLen bufferSize fulldatalength fuel rs pads data) := by
  intro fuel
  induction fuel with
  | zero => intro rs pads packId data; rfl
  | succ fuel ih =>
    intro rs pads packId data
    simp only [packLoop, loopSpecs]
    by_cases hc : auth_simple_pack_unit_size < data.length
    · rw [if_pos hc, if_pos hc]
      rw [ih]
      rw [show framesList mac userKey packId
        (⟨get_rand_len auth_simple_pack_unit_size fulldatalength lastDataLen bufferSize (rs 0) + 1,
          (randList (pads 0)
            (get_rand_len auth_simple_pack_unit_size fulldatalength lastDataLen bufferSize (rs 0) + 1)).drop
            (if get_rand_len auth_simple_pack_unit_size fulldatalength lastDataLen bufferSize (rs 0) + 1 < 128
              then 1 else 3),
          data.take auth_simple_pack_unit_size⟩ ::
          loopSpecs lastDataLen bufferSize fulldatalength fuel (fun i => rs (i + 1))
            (fun i => pads (i + 1)) (data.drop auth_simple_pack_unit_size)) =
        mkFrame mac userKey packId
          (get_rand_len auth_simple_pack_unit_size fulldatalength lastDataLen bufferSize (rs 0) + 1)
          ((randList (pads 0)
            (get_rand_len auth_simple_pack_unit_size fulldatalength lastDataLen bufferSize (rs 0) + 1)).drop
            (if get_rand_len auth_simple_pack_unit_size fulldatalength lastDataLen bufferSize (rs 0) + 1 < 128
              then 1 else 3))
          (data.take auth_simple_pack_unit_size) ::
          framesList mac userKey (packId + 1)
            (loopSpecs lastDataLen bufferSize fulldatalength fuel (fun i => rs (i + 1))
              (fun i => pads (i + 1)) (data.drop auth_simple_pack_unit_size)) from rfl]
      congr 1
      rw [auth_aes128_sha1_pack_data]
      rw [show (data.take auth_simple_pack_unit_size).length = auth_simple_pack_unit_size from
        length_take_of_le (by omega)]
      exact pack_data_core_eq mac userKey packId _ (pads 0) (data.take auth_simple_pack_unit_size)
        (by omega) Hm
    · rw [if_neg hc, if_neg hc]
      by_cases h0 : 0 < data.length
      · rw [if_pos h0, if_pos h0]
        rw [auth_aes128_sha1_pack_data]
        rw [show framesList mac userKey packId
          [⟨get_rand_len data.length fulldatalength lastDataLen bufferSize (rs 0) + 1,
            (randList (pads 0)
              (get_rand_len data.length fulldatalength lastDataLen bufferSize (rs 0) + 1)).drop
              (if get_rand_len data.length fulldatalength lastDataLen bufferSize (rs 0) + 1 < 128
                then 1 else 3), data⟩] =
          [mkFrame mac userKey packId
            (get_rand_len data.length fulldatalength lastDataLen bufferSize (rs 0) + 1)
            ((randList (pads 0)
              (get_rand_len data.length fulldatalength lastDataLen bufferSize (rs 0) + 1)).drop
              (if get_rand_len data.length fulldatalength lastDataLen bufferSize (rs 0) + 1 < 128
                then 1 else 3)) data] from rfl]
        congr 1
        exact pack_data_core_eq mac userKey packId _ (pads 0) data (by omega) Hm
      · rw [if_neg h0, if_neg h0]
        rfl

theorem loopSpecs_ok (lastDataLen bufferSize fulldatalength : Nat) :
    ∀ fuel rs pads data,
      FramesOK (loopSpecs lastDataLen bufferSize fulldatalength fuel rs pads data) := by
  intro fuel
  induction fuel with
  | zero => intro rs pads data f hf; cases hf
  | succ fuel ih =>
    intro rs pads data f hf
    rw [loopSpecs] at hf
    by_cases hc : auth_simple_pack_unit_size < data.length
    · rw [if_pos hc] at hf
      rcases List.mem_cons.mp hf with hf | hf
      · subst hf
        have hgl := get_rand_len_le auth_simple_pack_unit_size fulldatalength lastDataLen
          bufferSize (rs 0)
        have hck : (data.take auth_simple_pack_unit_size).length =
            auth_simple_pack_unit_size := length_take_of_le (by omega)
        simp only [FrameOK, auth_simple_pack_unit_size] at hgl hck ⊢
        exact ⟨by omega, by omega, by simp [length_randList], by omega, by omega⟩
      · exact ih _ _ _ f hf
    · rw [if_neg hc] at hf
      by_cases h0 : 0 < data.length
      · rw [if_pos h0] at hf
        rcases List.mem_cons.mp hf with hf | hf
        · subst hf
          have hgl := get_rand_len_le data.length fulldatalength lastDataLen bufferSize (rs 0)
          simp only [auth_simple_pack_unit_size] at hc
          simp only [FrameOK]
          exact ⟨by omega, by omega, by simp [length_randList], by omega, by omega⟩
        · cases hf
      · rw [if_neg h0] at hf
        cases hf

theorem loopSpecs_payload (lastDataLen bufferSize fulldatalength : Nat) :
    ∀ fuel rs pads data, data.length ≤ fuel →
      framesPayload (loopSpecs lastDataLen bufferSize fulldatalength fuel rs pads data) =
        data := by
  intro fuel
  induction fuel with
  | zero =>
    intro rs pads data hd
    have : data = [] := List.eq_nil_of_length_eq_zero (by omega)
    subst this
    rfl
  | succ fuel ih =>
    intro rs pads data hd
    rw [loopSpecs]
    by_cases hc : auth_simple_pack_unit_size < data.length
    · rw [if_pos hc]
      rw [show framesPayload
        (⟨get_rand_len auth_simple_pack_unit_size fulldatalength lastDataLen bufferSize (rs 0) + 1,
          (randList (pads 0)
            (get_rand_len auth_simple_pack_unit_size fulldatalength lastDataLen bufferSize (rs 0) + 1)).drop
            (if get_rand_len auth_simple_pack_unit_size fulldatalength lastDataLen bufferSize (rs 0) + 1 < 128
              then 1 else 3),
          data.take auth_simple_pack_unit_size⟩ ::
          loopSpecs lastDataLen bufferSize fulldatalength fuel (fun i => rs (i + 1))
            (fun i => pads (i + 1)) (data.drop auth_simple_pack_unit_size)) =
        data.take auth_simple_pack_unit_size ++
          framesPayload (loopSpecs lastDataLen bufferSize fulldatalength fuel (fun i => rs (i + 1))
            (fun i => pads (i + 1)) (data.drop auth_simple_pack_unit_size)) from rfl]
      rw [ih _ _ _ (by simp [auth_simple_pack_unit_size] at hc ⊢; omega)]
      exact List.take_append_drop _ data
    · rw [if_neg hc]
      by_cases h0 : 0 < data.length
      · rw [if_pos h0]
        simp [framesPayload]
      · rw [if_neg h0]
        have : data = [] := List.eq_nil_of_length_eq_zero (by omega)
        subst this
        rfl

theorem loopSpecs_length (lastDataLen bufferSize fulldatalength : Nat) :
    ∀ fuel rs pads data, data.length ≤ fuel →
      (loopSpecs lastDataLen bufferSize fulldatalength fuel rs pads data).length =
        (data.length + (auth_simple_pack_unit_size - 1)) / auth_simple_pack_unit_size := by
  intro fuel
  induction fuel with
  | zero =>
    intro rs pads data hd
    have : data = [] := List.eq_nil_of_length_eq_zero (by omega)
    subst this
    rfl
  | succ fuel ih =>
    intro rs pads data hd
    rw [loopSpecs]
    simp only [auth_simple_pack_unit_size] at *
    by_cases hc : 2000 < data.length
    · rw [if_pos hc]
      rw [List.length_cons, ih _ _ _ (by simp; omega)]
      simp only [List.length_drop]
      omega
    · rw [if_neg hc]
      by_cases h0 : 0 < data.length
      · rw [if_pos h0]
        simp
        omega
      · rw [if_neg h0]
        simp
        omega

theorem framesList_length (mac : List Nat → List Nat → List Nat) (userKey : List Nat) :
    ∀ L id, (framesList mac userKey id L).length = L.length := by
  intro L
  induction L with
  | nil => intro id; rfl
  | cons f L ih =>
    intro id
    rw [show framesList mac userKey id (f :: L) =
      mkFrame mac userKey id f.rand_len f.padTail f.data ::
        framesList mac userKey (id + 1) L from rfl]
    simp [ih]

theorem packLoop_length (mac : List Nat → List Nat → List Nat) (userKey : List Nat)
    (lastDataLen bufferSize fulldatalength : Nat) :
    ∀ fuel rs pads packId data, data.length ≤ fuel →
      (packLoop mac userKey lastDataLen bufferSize fulldatalength fuel rs pads
        packId data).length =
        (data.length + (auth_simple_pack_unit_size - 1)) / auth_simple_pack_unit_size := by
  intro fuel
  induction fuel with
  | zero =>
    intro rs pads packId data hd
    have : data = [] := List.eq_nil_of_length_eq_zero (by omega)
    subst this
    rfl
  | succ fuel ih =>
    intro rs pads packId data hd
    rw [packLoop]
    simp only [auth_simple_pack_unit_size] at *
    by_cases hc : 2000 < data.length
    · rw [if_pos hc]
      rw [List.length_cons, ih _ _ _ _ (by simp; omega)]
      simp only [List.length_drop]
      omega
    · rw [if_neg hc]
      by_cases h0 : 0 < data.length
      · rw [if_pos h0]
        simp
        omega
      · rw [if_neg h0]
        simp
        omega

theorem mkFrame_readLE16 (mac : List Nat → List Nat → List Nat)
    (userKey : List Nat) (id rand_len : Nat) (padTail data : List Nat)
    (Hm : ∀ k m, 4 ≤ (mac k m).length)
    (h : rand_len + data.length + 8 < 65536) :
    readLE16 (mkFrame mac userKey id rand_len padTail data) =
      rand_len + data.length + 8 := by
  obtain ⟨x2, x3, tail, -, hFn⟩ := mkFrame_norm mac userKey id rand_len padTail data Hm
  rw [hFn]
  simp only [readLE16, List.getD_cons_zero, List.getD_cons_succ]
  omega

theorem pdLoop_small (mac : List Nat → List Nat → List Nat) (userKey : List Nat)
    (fuel : Nat) (buf : List Nat) (rid : Nat) (h : ¬ 4 < buf.length) :
    pdLoop mac userKey fuel buf rid = ⟨true, [], buf, rid⟩ := by
  rcases fuel with _ | fuel
  · rfl
  · simp only [pdLoop]
    rw [if_neg h]

/-! ### Closed form of `auth_aes128_sha1_pack_auth_data` -/

theorem pack_auth_data_eq (env : AuthEnv) (srv : AuthSrv) (salt : List Nat)
    (g : AuthGlobal) (uk0 : Option (List Nat)) (uid0 : List Nat)
    (r t : Nat) (padA : Nat → Nat) (reseedCid : List Nat) (reseedConn : Nat)
    (rndUid : List Nat) (b0 : Nat) (data : List Nat)
    (Hm6 : ∀ k m, 6 ≤ (env.mac k m).length)
    (Haes : ∀ p k, (env.aes p k).length = 16)
    (huid : (match uk0 with
             | some _ => uid0
             | none => (resolveUserKey env srv rndUid).1).length = 4) :
    (auth_aes128_sha1_pack_auth_data env srv salt g uk0 uid0 r t padA reseedCid
      reseedConn rndUid b0 data).out =
      authChunkShape env srv salt
        (auth_aes128_sha1_pack_auth_data env srv salt g uk0 uid0 r t padA reseedCid
          reseedConn rndUid b0 data).uid
        (auth_aes128_sha1_pack_auth_data env srv salt g uk0 uid0 r t padA reseedCid
          reseedConn rndUid b0 data).userKey
        t (auth_update_connection_id reseedCid reseedConn g)
        (if 400 < data.length then r % 512 else r % 1024) padA b0 data := by
  simp only [auth_aes128_sha1_pack_auth_data, authChunkShape]
  set n := data.length with hn
  set rand_len := (if 400 < n then r % 512 else r % 1024) with hrl
  set s := rand_len + 31 + n + 4 with hs
  set keyIV := srv.iv ++ srv.key with hkeyIV
  set g' := auth_update_connection_id reseedCid reseedConn g with hg'
  set uid := (match uk0 with
              | some k => (uid0, k)
              | none => resolveUserKey env srv rndUid).1 with huidv
  set userKey := (match uk0 with
                  | some k => (uid0, k)
                  | none => resolveUserKey env srv rndUid).2 with hukv
  have huidlen : uid.length = 4 := by
    rw [huidv]
    rcases uk0 with _ | k
    · exact huid
    · exact huid
  set E24 := authEncrypt24 env srv salt uid userKey t g' s rand_len with hE24
  have hE24len : E24.length = 24 := by
    rw [hE24, authEncrypt24]
    simp only [List.length_append, huidlen, Haes]
    rw [length_take_of_le (le_trans (by omega) (Hm6 _ _))]
  set R := randList padA rand_len with hR
  have hRlen : R.length = rand_len := length_randList padA rand_len
  have h6len : ((env.mac keyIV [b0 % 256]).take 6).length = 6 :=
    length_take_of_le (Hm6 _ _)
  -- the writes, in source order
  rw [show rand_len + 16 + 4 + 4 + 7 = rand_len + 31 by omega,
    show rand_len + 31 - rand_len = 31 by omega]
  have hc1 : writeAt (List.replicate s 0) 31 R =
      List.replicate 31 0 ++ (R ++ List.replicate (n + 4) 0) := by
    have hsplit : List.replicate s (0 : Nat) =
        List.replicate 31 0 ++ (List.replicate rand_len 0 ++ List.replicate (n + 4) 0) := by
      rw [← List.replicate_add, ← List.replicate_add]
      congr 1
      omega
    rw [hsplit]
    exact writeAt_eq' R 31 (by simp) (by simp [hRlen])
  rw [hc1]
  have hc2 : writeAt (List.replicate 31 0 ++ (R ++ List.replicate (n + 4) 0)) 0 [b0 % 256] =
      [b0 % 256] ++ (List.replicate 30 0 ++ (R ++ List.replicate (n + 4) 0)) := by
    have hsplit : List.replicate 31 (0 : Nat) ++ (R ++ List.replicate (n + 4) 0) =
        ([] : List Nat) ++ ([0] ++ (List.replicate 30 0 ++ (R ++ List.replicate (n + 4) 0))) := by
      rw [show (31 : Nat) = 1 + 30 by omega, List.replicate_add]
      simp
    rw [hsplit]
    exact writeAt_eq' [b0 % 256] 0 rfl rfl
  rw [hc2]
  have hc3 : writeAt ([b0 % 256] ++ (List.replicate 30 0 ++ (R ++ List.replicate (n + 4) 0))) 1
      ((env.mac keyIV [b0 % 256]).take 6) =
      [b0 % 256] ++ ((env.mac keyIV [b0 % 256]).take 6 ++
        (List.replicate 24 0 ++ (R ++ List.replicate (n + 4) 0))) := by
    have hsplit : [b0 % 256] ++ (List.replicate 30 (0 : Nat) ++ (R ++ List.replicate (n + 4) 0)) =
        [b0 % 256] ++ (List.replicate 6 0 ++
          (List.replicate 24 0 ++ (R ++ List.replicate (n + 4) 0))) := by
      rw [show (30 : Nat) = 6 + 24 by omega, List.replicate_add]
      simp
    rw [hsplit]
    exact writeAt_eq' _ 1 rfl (by simp [h6len])
  rw [hc3]
  have hc4 : writeAt ([b0 % 256] ++ ((env.mac keyIV [b0 % 256]).take 6 ++
      (List.replicate 24 0 ++ (R ++ List.replicate (n + 4) 0)))) 7 E24 =
      ([b0 % 256] ++ (env.mac keyIV [b0 % 256]).take 6) ++
        (E24 ++ (R ++ List.replicate (n + 4) 0)) := by
    have hsplit : [b0 % 256] ++ ((env.mac keyIV [b0 % 256]).take 6 ++
        (List.replicate 24 (0 : Nat) ++ (R ++ List.replicate (n + 4) 0))) =
        ([b0 % 256] ++ (env.mac keyIV [b0 % 256]).take 6) ++
          (List.replicate 24 0 ++ (R ++ List.replicate (n + 4) 0)) := by
      simp
    rw [hsplit]
    exact writeAt_eq' E24 7 (by simp [h6len]) (by simp [hE24len])
  rw [hc4]
  have hc5 : writeAt (([b0 % 256] ++ (env.mac keyIV [b0 % 256]).take 6) ++
      (E24 ++ (R ++ List.replicate (n + 4) 0))) (rand_len + 31) data =
      (([b0 % 256] ++ (env.mac keyIV [b0 % 256]).take 6) ++ (E24 ++ R)) ++
        (data ++ List.replicate 4 0) := by
    have hsplit : ([b0 % 256] ++ (env.mac keyIV [b0 % 256]).take 6) ++
        (E24 ++ (R ++ List.replicate (n + 4) (0 : Nat))) =
        (([b0 % 256] ++ (env.mac keyIV [b0 % 256]).take 6) ++ (E24 ++ R)) ++
          (List.replicate n 0 ++ List.replicate 4 0) := by
      rw [← List.replicate_add]
      simp
    rw [hsplit]
    refine writeAt_eq' data (rand_len + 31) ?_ (by simp)
    simp [h6len, hE24len, hRlen]
    omega
  rw [hc5]
  have hbody : (([b0 % 256] ++ (env.mac keyIV [b0 % 256]).take 6) ++ (E24 ++ R)) ++
      (data ++ List.replicate 4 0) =
      ((([b0 % 256] ++ (env.mac keyIV [b0 % 256]).take 6) ++ (E24 ++ R)) ++ data) ++
        (List.replicate 4 0 ++ ([] : List Nat)) := by
    simp
  have hblen : (((([b0 % 256] ++ (env.mac keyIV [b0 % 256]).take 6) ++ (E24 ++ R)) ++ data)).length =
      s - 4 := by
    simp [h6len, hE24len, hRlen]
    omega
  have htkb : ((([b0 % 256] ++ (env.mac keyIV [b0 % 256]).take 6) ++ (E24 ++ R)) ++
      (data ++ List.replicate 4 0)).take (s - 4) =
      (([b0 % 256] ++ (env.mac keyIV [b0 % 256]).take 6) ++ (E24 ++ R)) ++ data := by
    rw [hbody]
    exact List.take_left' hblen
  rw [htkb]
  have hc6 : writeAt ((([b0 % 256] ++ (env.mac keyIV [b0 % 256]).take 6) ++ (E24 ++ R)) ++
      (data ++ List.replicate 4 0)) (s - 4)
      ((env.mac userKey ((([b0 % 256] ++ (env.mac keyIV [b0 % 256]).take 6) ++ (E24 ++ R)) ++
        data)).take 4) =
      ((([b0 % 256] ++ (env.mac keyIV [b0 % 256]).take 6) ++ (E24 ++ R)) ++ data) ++
        ((env.mac userKey ((([b0 % 256] ++ (env.mac keyIV [b0 % 256]).take 6) ++ (E24 ++ R)) ++
          data)).take 4 ++ []) := by
    rw [hbody]
    refine writeAt_eq' _ (s - 4) hblen ?_
    rw [length_take_of_le (le_trans (by omega) (Hm6 _ _))]
    rfl
  rw [hc6]
  simp [List.append_assoc]

/-! ### Shared helpers for the claim theorems -/

theorem pre_encrypt_pos (env : AuthEnv) (srv : AuthSrv) (salt : List Nat)
    (g : AuthGlobal) (loc : AuthLocal) (r t : Nat) (padA : Nat → Nat)
    (reseedCid : List Nat) (reseedConn : Nat) (rndUid : List Nat) (b0 : Nat)
    (rs : Nat → Nat) (pads : Nat → Nat → Nat) (s : List Nat)
    (hdr : loc.has_sent_header = false) (hne : 0 < s.length) :
    auth_aes128_sha1_client_pre_encrypt env srv salt g loc r t padA reseedCid
      reseedConn rndUid b0 rs pads s =
      ⟨(auth_aes128_sha1_pack_auth_data env srv salt g loc.user_key loc.uid r t padA
          reseedCid reseedConn rndUid b0 (s.take (min 1200 s.length))).out ::
          packLoop env.mac
            (auth_aes128_sha1_pack_auth_data env srv salt g loc.user_key loc.uid r t padA
              reseedCid reseedConn rndUid b0 (s.take (min 1200 s.length))).userKey
            loc.last_data_len srv.bufferSize s.length (s.drop (min 1200 s.length)).length
            rs pads loc.pack_id (s.drop (min 1200 s.length)),
        (auth_aes128_sha1_pack_auth_data env srv salt g loc.user_key loc.uid r t padA
          reseedCid reseedConn rndUid b0 (s.take (min 1200 s.length))).g,
        { has_sent_header := true,
          pack_id := loc.pack_id +
            (packLoop env.mac
              (auth_aes128_sha1_pack_auth_data env srv salt g loc.user_key loc.uid r t padA
                reseedCid reseedConn rndUid b0 (s.take (min 1200 s.length))).userKey
              loc.last_data_len srv.bufferSize s.length (s.drop (min 1200 s.length)).length
              rs pads loc.pack_id (s.drop (min 1200 s.length))).length,
          user_key := some (auth_aes128_sha1_pack_auth_data env srv salt g loc.user_key
            loc.uid r t padA reseedCid reseedConn rndUid b0 (s.take (min 1200 s.length))).userKey,
          uid := (auth_aes128_sha1_pack_auth_data env srv salt g loc.user_key loc.uid r t
            padA reseedCid reseedConn rndUid b0 (s.take (min 1200 s.length))).uid,
          last_data_len := s.length }⟩ := by
  simp only [auth_aes128_sha1_client_pre_encrypt]
  rw [if_pos ⟨hne, hdr⟩]

theorem framesList_readLE16 (mac : List Nat → List Nat → List Nat) (userKey : List Nat)
    (Hm : ∀ k m, 4 ≤ (mac k m).length) :
    ∀ L id C, FramesOK L → C ∈ framesList mac userKey id L →
      readLE16 C = C.length := by
  intro L
  induction L with
  | nil => intro id C _ hC; cases hC
  | cons f L ih =>
    intro id C hok hC
    rw [show framesList mac userKey id (f :: L) =
      mkFrame mac userKey id f.rand_len f.padTail f.data ::
        framesList mac userKey (id + 1) L from rfl] at hC
    rcases List.mem_cons.mp hC with hC | hC
    · subst hC
      obtain ⟨ho1, ho2, ho3, ho4, ho5⟩ := hok f (by simp)
      rw [mkFrame_readLE16 mac userKey id _ _ _ Hm (by omega),
        mkFrame_length mac userKey id _ _ _ Hm ⟨ho1, ho2, ho3, ho4, ho5⟩]
    · exact ih (id + 1) C (fun g hg => hok g (by simp [hg])) hC

/-! ### The claims -/

/-- C5 (counterexample to the claim as stated): `connection_id` reaching
exactly `0xFF000000` does *not* trigger the re-randomization: starting
from `0xFEFFFFFF`, one `pack_auth_data` leaves `connection_id` at
`0xFF000000` (which is not `≤ 0xFFFFFF`) and keeps `local_client_id`
unchanged, although fresh random bytes were available. -/
theorem C5_counterexample :
    (auth_aes128_sha1_pack_auth_data env0 srv0 [] ⟨List.replicate 8 0, 4278190079⟩
      none [0, 0, 0, 0] 0 0 zf (List.replicate 8 9) 12345 [0, 0, 0, 0] 0 [1]).g.connection_id =
      4278190080 ∧
    ¬ (auth_aes128_sha1_pack_auth_data env0 srv0 [] ⟨List.replicate 8 0, 4278190079⟩
      none [0, 0, 0, 0] 0 0 zf (List.replicate 8 9) 12345 [0, 0, 0, 0] 0 [1]).g.connection_id ≤
      16777215 ∧
    (auth_aes128_sha1_pack_auth_data env0 srv0 [] ⟨List.replicate 8 0, 4278190079⟩
      none [0, 0, 0, 0] 0 0 zf (List.replicate 8 9) 12345 [0, 0, 0, 0] 0 [1]).g.local_client_id =
      List.replicate 8 0 := by
  refine ⟨rfl, by decide, rfl⟩

/-- C5 (amended): each `pack_auth_data` performs the `connection_id`
update exactly once: the new global state is
`auth_update_connection_id` of the old one; the increment is by one
(mod `2^32`) as long as the result stays at or below `0xFF000000`, and as
soon as it exceeds `0xFF000000` both `local_client_id` and
`connection_id` are re-randomized, the latter masked to 24 bits (hence
`≤ 0xFFFFFF`). -/
theorem C5_connection_id_update (env : AuthEnv) (srv : AuthSrv) (salt : List Nat)
    (g : AuthGlobal) (uk0 : Option (List Nat)) (uid0 : List Nat) (r t : Nat)
    (padA : Nat → Nat) (reseedCid : List Nat) (reseedConn : Nat)
    (rndUid : List Nat) (b0 : Nat) (data : List Nat) :
    (auth_aes128_sha1_pack_auth_data env srv salt g uk0 uid0 r t padA reseedCid
      reseedConn rndUid b0 data).g =
      auth_update_connection_id reseedCid reseedConn g ∧
    (4278190080 < (g.connection_id + 1) % 4294967296 →
      auth_update_connection_id reseedCid reseedConn g =
        ⟨reseedCid, reseedConn % 16777216⟩ ∧ reseedConn % 16777216 ≤ 16777215) ∧
    (¬ 4278190080 < (g.connection_id + 1) % 4294967296 →
      auth_update_connection_id reseedCid reseedConn g =
        ⟨g.local_client_id, (g.connection_id + 1) % 4294967296⟩) := by
  refine ⟨rfl, ?_, ?_⟩
  · intro h
    rw [auth_update_connection_id]
    rw [if_pos h]
    exact ⟨rfl, by omega⟩
  · intro h
    rw [auth_update_connection_id]
    rw [if_neg h]

/-- Witness for C5: at `connection_id = 0xFF000000` the incremented value
exceeds the threshold, so the next auth pack re-seeds and masks. -/
theorem C5_connection_id_update_witness :
    (auth_aes128_sha1_pack_auth_data env0 srv0 [] ⟨List.replicate 8 0, 4278190080⟩
      none [0, 0, 0, 0] 0 0 zf (List.replicate 8 9) 12345 [0, 0, 0, 0] 0 [1]).g =
      auth_update_connection_id (List.replicate 8 9) 12345 ⟨List.replicate 8 0, 4278190080⟩ ∧
    auth_update_connection_id (List.replicate 8 9) 12345 ⟨List.replicate 8 0, 4278190080⟩ =
      ⟨List.replicate 8 9, 12345 % 16777216⟩ ∧ 12345 % 16777216 ≤ 16777215 :=
  ⟨(C5_connection_id_update env0 srv0 [] ⟨List.replicate 8 0, 4278190080⟩ none [0, 0, 0, 0]
      0 0 zf (List.replicate 8 9) 12345 [0, 0, 0, 0] 0 [1]).1,
   (C5_connection_id_update env0 srv0 [] ⟨List.replicate 8 0, 4278190080⟩ none [0, 0, 0, 0]
      0 0 zf (List.replicate 8 9) 12345 [0, 0, 0, 0] 0 [1]).2.1 (by decide)⟩

/-- C7: in the tunnel state machine, a failed resolve (`do_req_lookup`
with a negative outgoing result) writes exactly
`05 04 00 01 00 00 00 00 00 00` (host unreachable) to the client and
moves to `kill`; a failed connect (`do_req_connect` with a non-zero
outgoing result) writes exactly `05 05 00 01 00 00 00 00 00 00`
(connection refused) to the client and moves to `kill`. -/
theorem C7_socks5_error_replies (t : TunnelM) (encOk : Bool) (encBytes : List Nat) :
    (t.outgoing_result < 0 →
      do_req_lookup t =
        { t with incoming_writes := t.incoming_writes ++ [[5, 4, 0, 1, 0, 0, 0, 0, 0, 0]],
                 state := SState.kill }) ∧
    (t.outgoing_result ≠ 0 →
      do_req_connect t encOk encBytes =
        { t with incoming_writes := t.incoming_writes ++ [[5, 5, 0, 1, 0, 0, 0, 0, 0, 0]],
                 state := SState.kill }) := by
  constructor
  · intro h
    rw [do_req_lookup, if_pos h]
  · intro h
    rw [do_req_connect, if_neg h]

/-- Witness for C7 at a concrete tunnel state. -/
theorem C7_socks5_error_replies_witness :
    do_req_lookup ⟨SState.req_lookup, -1, [], [], true, false, none, 80⟩ =
      ⟨SState.kill, -1, [[5, 4, 0, 1, 0, 0, 0, 0, 0, 0]], [], true, false, none, 80⟩ ∧
    do_req_connect ⟨SState.req_connect, -1, [], [], true, false, none, 80⟩ true [9] =
      ⟨SState.kill, -1, [[5, 5, 0, 1, 0, 0, 0, 0, 0, 0]], [], true, false, none, 80⟩ :=
  ⟨(C7_socks5_error_replies ⟨SState.req_lookup, -1, [], [], true, false, none, 80⟩
      true [9]).1 (by decide),
   (C7_socks5_error_replies ⟨SState.req_connect, -1, [], [], true, false, none, 80⟩
      true [9]).2 (by decide)⟩

/-- C8 (counterexample to the claim as stated): the obfs instance does
*not* receive `overhead = protocol.get_overhead() + obfs.get_overhead()`:
with the `auth_aes128_sha1` protocol (overhead 9) and an obfs plugin of
overhead 0, the obfs instance receives `overhead = 0` while the sum
is 9 (the struct is handed to the obfs plugin before `overhead` is
computed). -/
theorem C8_counterexample :
    (tunnel_cipher_create 2048 (some 0) (some auth_aes128_sha1_get_overhead)
      none none).1 =
      some { tcp_mss := 1452, buffer_size := 2048, overhead := 0, param := none } ∧
    auth_aes128_sha1_get_overhead + 0 ≠ 0 := by
  exact ⟨rfl, by decide⟩

/-- C8 (amended): at tunnel-cipher construction both plugin instances
receive a `ServerInfo` with `tcp_mss = 1452` and
`buffer_size = SSR_BUFF_SIZE`; the *protocol* instance receives
`overhead = protocol.get_overhead() + obfs.get_overhead()`, while the
*obfs* instance receives the struct before `overhead` is computed and
therefore sees `overhead = 0`. -/
theorem C8_server_info_fields (ssrBuffSize : Nat)
    (obfsOverhead protocolOverhead : Option Nat)
    (obfsParam protocolParam : Option (List Nat)) :
    (∀ o, obfsOverhead = some o →
      (tunnel_cipher_create ssrBuffSize obfsOverhead protocolOverhead
        obfsParam protocolParam).1 =
        some { tcp_mss := 1452, buffer_size := ssrBuffSize, overhead := 0,
               param := obfsParam }) ∧
    (∀ p, protocolOverhead = some p →
      (tunnel_cipher_create ssrBuffSize obfsOverhead protocolOverhead
        obfsParam protocolParam).2 =
        some { tcp_mss := 1452, buffer_size := ssrBuffSize,
               overhead := p + obfsOverhead.getD 0, param := protocolParam }) := by
  constructor
  · intro o ho
    subst ho
    rfl
  · intro p hp
    subst hp
    rfl

/-- Witness for C8 with the `auth_aes128_sha1` protocol overhead. -/
theorem C8_server_info_fields_witness :
    (tunnel_cipher_create 2048 (some 0) (some auth_aes128_sha1_get_overhead)
      none none).1 =
      some { tcp_mss := 1452, buffer_size := 2048, overhead := 0, param := none } ∧
    (tunnel_cipher_create 2048 (some 0) (some auth_aes128_sha1_get_overhead)
      none none).2 =
      some { tcp_mss := 1452, buffer_size := 2048,
             overhead := auth_aes128_sha1_get_overhead + (some 0).getD 0, param := none } :=
  ⟨(C8_server_info_fields 2048 (some 0) (some auth_aes128_sha1_get_overhead) none none).1
      0 rfl,
   (C8_server_info_fields 2048 (some 0) (some auth_aes128_sha1_get_overhead) none none).2
      auth_aes128_sha1_get_overhead rfl⟩

/-- C9: every non-initial chunk has `rand_len = get_rand_len(..) + 1 ≥ 1`
random padding bytes and total length `rand_len + n + 8`; for payload
lengths `1 ≤ n ≤ 2000` this length lies in `[10, 8192)`, inside the
`8 ≤ length < 8192` window enforced by `client_post_decrypt`. -/
theorem C9_pack_data_bounds (mac : List Nat → List Nat → List Nat)
    (userKey : List Nat) (packId lastDataLen bufferSize r : Nat) (pad : Nat → Nat)
    (data : List Nat) (fulldatalength : Nat)
    (Hm : ∀ k m, 4 ≤ (mac k m).length)
    (h1 : 1 ≤ data.length) (h2 : data.length ≤ 2000) :
    1 ≤ get_rand_len data.length fulldatalength lastDataLen bufferSize r + 1 ∧
    (auth_aes128_sha1_pack_data mac userKey packId lastDataLen bufferSize r pad data
      fulldatalength).length =
      (get_rand_len data.length fulldatalength lastDataLen bufferSize r + 1) +
        data.length + 8 ∧
    10 ≤ (auth_aes128_sha1_pack_data mac userKey packId lastDataLen bufferSize r pad data
      fulldatalength).length ∧
    (auth_aes128_sha1_pack_data mac userKey packId lastDataLen bufferSize r pad data
      fulldatalength).length < 8192 ∧
    8 ≤ (auth_aes128_sha1_pack_data mac userKey packId lastDataLen bufferSize r pad data
      fulldatalength).length := by
  have hgl := get_rand_len_le data.length fulldatalength lastDataLen bufferSize r
  have hlen : (auth_aes128_sha1_pack_data mac userKey packId lastDataLen bufferSize r pad
      data fulldatalength).length =
      (get_rand_len data.length fulldatalength lastDataLen bufferSize r + 1) +
        data.length + 8 := by
    rw [auth_aes128_sha1_pack_data,
      pack_data_core_eq mac userKey packId _ pad data (by omega) Hm]
    exact mkFrame_length mac userKey packId _ _ data Hm
      ⟨by omega, by omega, by simp [length_randList], h1, by omega⟩
  exact ⟨by omega, hlen, by omega, by omega, by omega⟩

/-- Witness for C9 on a 1-byte payload. -/
theorem C9_pack_data_bounds_witness :
    1 ≤ get_rand_len 1 1 0 2048 0 + 1 ∧
    (auth_aes128_sha1_pack_data mac0 [0] 1 0 2048 0 zf [7] 1).length =
      (get_rand_len 1 1 0 2048 0 + 1) + 1 + 8 ∧
    10 ≤ (auth_aes128_sha1_pack_data mac0 [0] 1 0 2048 0 zf [7] 1).length ∧
    (auth_aes128_sha1_pack_data mac0 [0] 1 0 2048 0 zf [7] 1).length < 8192 ∧
    8 ≤ (auth_aes128_sha1_pack_data mac0 [0] 1 0 2048 0 zf [7] 1).length := by
  have h := C9_pack_data_bounds mac0 [0] 1 0 2048 0 zf [7] 1
    (fun _ _ => by simp [mac0]) (by decide) (by decide)
  exact h

/-- C10: `client_udp_post_decrypt` never signals failure: inputs of
length at most 4 return 0, inputs with a mismatched trailing server-key
HMAC return 0, and a valid input returns its length minus 4; the buffer
is never rewritten. -/
theorem C10_udp_post_decrypt (mac : List Nat → List Nat → List Nat)
    (serverKey : List Nat) (input : List Nat) :
    0 ≤ (auth_aes128_sha1_client_udp_post_decrypt mac serverKey input).1 ∧
    (auth_aes128_sha1_client_udp_post_decrypt mac serverKey input).2 = input ∧
    (input.length ≤ 4 →
      (auth_aes128_sha1_client_udp_post_decrypt mac serverKey input).1 = 0) ∧
    (4 < input.length →
      (mac serverKey (input.take (input.length - 4))).take 4 ≠
        (input.drop (input.length - 4)).take 4 →
      (auth_aes128_sha1_client_udp_post_decrypt mac serverKey input).1 = 0) ∧
    (4 < input.length →
      (mac serverKey (input.take (input.length - 4))).take 4 =
        (input.drop (input.length - 4)).take 4 →
      (auth_aes128_sha1_client_udp_post_decrypt mac serverKey input).1 =
        (input.length : Int) - 4) := by
  rw [auth_aes128_sha1_client_udp_post_decrypt]
  by_cases hle : input.length ≤ 4
  · rw [if_pos hle]
    refine ⟨by simp, rfl, fun _ => rfl, fun h _ => absurd hle (by omega), fun h _ =>
      absurd hle (by omega)⟩
  · rw [if_neg hle]
    by_cases hmac : (mac serverKey (input.take (input.length - 4))).take 4 =
        (input.drop (input.length - 4)).take 4
    · rw [if_pos hmac]
      refine ⟨by simp; omega, rfl, fun h => absurd h hle, fun _ h => absurd hmac h,
        fun _ _ => rfl⟩
    · rw [if_neg hmac]
      exact ⟨by simp, rfl, fun h => absurd h hle, fun _ _ => rfl,
        fun _ h => absurd h hmac⟩

/-- Witness for C10 on concrete valid and invalid datagrams. -/
theorem C10_udp_post_decrypt_witness :
    (auth_aes128_sha1_client_udp_post_decrypt mac0 [0] [1, 2, 3]).1 = 0 ∧
    (auth_aes128_sha1_client_udp_post_decrypt mac0 [0] [1, 2, 3, 4, 0, 0, 0, 0]).1 = 4 :=
  ⟨(C10_udp_post_decrypt mac0 [0] [1, 2, 3]).2.2.1 (by decide),
   (C10_udp_post_decrypt mac0 [0] [1, 2, 3, 4, 0, 0, 0, 0]).2.2.2.2 (by decide) (by decide)⟩

theorem resolveUserKey_uid_length (env : AuthEnv) (srv : AuthSrv) (rndUid : List Nat)
    (h : rndUid.length = 4) : (resolveUserKey env srv rndUid).1.length = 4 := by
  rcases hsp : srv.param with _ | p
  · simp [resolveUserKey, hsp, h]
  · rcases hsc : splitColon p with _ | ⟨uidStr, keyStr⟩
    · simp [resolveUserKey, hsp, hsc, h]
    · by_cases hpe : p = []
      · subst hpe
        exact absurd hsc (by simp [splitColon])
      · simp [resolveUserKey, hsp, hsc, hpe, le32_length]

/-- C6 (counterexample to the claim as stated): with exactly 4 bytes
buffered, `client_post_decrypt` does *not* attempt frame validation:
the input `[0,0,0,0]` has length field `0 < 8`, yet the call returns
success (`0` emitted bytes) and keeps the 4 bytes buffered instead of
clearing the buffer and reporting an error. -/
theorem C6_counterexample :
    auth_aes128_sha1_client_post_decrypt mac0 [0] ⟨[], 1⟩ [0, 0, 0, 0] =
      (some [], ⟨[0, 0, 0, 0], 1⟩) ∧
    readLE16 [0, 0, 0, 0] < 8 := by
  exact ⟨by decide, by decide⟩

/-- C6 (amended): `client_post_decrypt` returns an error without
appending when the buffered length plus the input length exceeds 16384;
it attempts frame validation only when *more than* 4 bytes are buffered
(with at most 4 bytes it returns success leaving the appended buffer
untouched); and whenever more than 4 bytes are buffered and the
little-endian length field is below 8 or at least 8192 it clears
`recv_buffer` and reports an error. -/
theorem C6_post_decrypt_guards (mac : List Nat → List Nat → List Nat)
    (userKey : List Nat) (st : RecvState) (input : List Nat) :
    (16384 < st.buf.length + input.length →
      auth_aes128_sha1_client_post_decrypt mac userKey st input = (none, st)) ∧
    (st.buf.length + input.length ≤ 4 →
      auth_aes128_sha1_client_post_decrypt mac userKey st input =
        (some [], ⟨st.buf ++ input, st.recv_id⟩)) ∧
    (4 < st.buf.length + input.length → st.buf.length + input.length ≤ 16384 →
      (readLE16 (st.buf ++ input) < 8 ∨ 8192 ≤ readLE16 (st.buf ++ input)) →
      auth_aes128_sha1_client_post_decrypt mac userKey st input =
        (none, ⟨[], st.recv_id⟩)) := by
  refine ⟨?_, ?_, ?_⟩
  · intro h
    simp only [auth_aes128_sha1_client_post_decrypt]
    rw [if_pos h]
  · intro h
    simp only [auth_aes128_sha1_client_post_decrypt]
    rw [if_neg (by omega)]
    rw [pdLoop_small mac userKey _ _ _ (by simp; omega)]
    simp
  · intro h4 h16 hbad
    have h5 : 4 < (st.buf ++ input).length := by
      simp
      omega
    obtain ⟨f, hf⟩ : ∃ f, (st.buf ++ input).length = f + 1 :=
      ⟨(st.buf ++ input).length - 1, by simp; omega⟩
    simp only [auth_aes128_sha1_client_post_decrypt]
    rw [if_neg (by omega)]
    rw [hf]
    simp only [pdLoop]
    rw [if_pos h5]
    by_cases hm : (mac (userKey ++ le32 st.recv_id) ((st.buf ++ input).take 2)).take 2 =
        ((st.buf ++ input).drop 2).take 2
    · rw [if_pos hm]
      rw [if_neg (by rcases hbad with h | h <;> omega :
        ¬ (8 ≤ readLE16 (st.buf ++ input) ∧ readLE16 (st.buf ++ input) < 8192))]
      simp
    · rw [if_neg hm]
      simp

/-- Witness for C6: an overflowing call, a short call and an invalid
length field at a concrete state. -/
theorem C6_post_decrypt_guards_witness :
    auth_aes128_sha1_client_post_decrypt mac0 [0] ⟨List.replicate 16384 0, 1⟩ [1] =
      (none, ⟨List.replicate 16384 0, 1⟩) ∧
    auth_aes128_sha1_client_post_decrypt mac0 [0] ⟨[], 1⟩ [7] = (some [], ⟨[7], 1⟩) ∧
    auth_aes128_sha1_client_post_decrypt mac0 [0] ⟨[], 1⟩ [0, 0, 0, 0, 0] =
      (none, ⟨[], 1⟩) :=
  ⟨(C6_post_decrypt_guards mac0 [0] ⟨List.replicate 16384 0, 1⟩ [1]).1
     (by simp only [List.length_replicate, List.length_cons, List.length_nil]; omega),
   (C6_post_decrypt_guards mac0 [0] ⟨[], 1⟩ [7]).2.1 (by decide),
   (C6_post_decrypt_guards mac0 [0] ⟨[], 1⟩ [0, 0, 0, 0, 0]).2.2 (by decide) (by decide)
     (by decide)⟩

/-- C2 (counterexample to the claim as stated): the first two bytes of
the *initial auth-data chunk* are a random byte and the first HMAC byte,
not the chunk length: on the 1-byte stream `[1]` with the zero crypto
environment the chunk has length 36 but its first two bytes read 0. -/
theorem C2_counterexample :
    readLE16 ((auth_aes128_sha1_client_pre_encrypt env0 srv0 [] g0 loc0 0 0 zf
      (List.replicate 8 0) 0 [0, 0, 0, 0] 0 zf zf2 [1]).chunks.getD 0 []) ≠
    ((auth_aes128_sha1_client_pre_encrypt env0 srv0 [] g0 loc0 0 0 zf
      (List.replicate 8 0) 0 [0, 0, 0, 0] 0 zf zf2 [1]).chunks.getD 0 []).length := by
  decide

/-- C2 (amended): for every *non-initial* chunk `C` emitted by
`client_pre_encrypt` (all chunks produced by `pack_data`, i.e. all but
the initial auth-data chunk), the first two bytes of `C` read as a
little-endian u16 equal the total byte length of `C`. -/
theorem C2_length_field (env : AuthEnv) (srv : AuthSrv) (salt : List Nat)
    (g : AuthGlobal) (loc : AuthLocal) (r t : Nat) (padA : Nat → Nat)
    (reseedCid : List Nat) (reseedConn : Nat) (rndUid : List Nat) (b0 : Nat)
    (rs : Nat → Nat) (pads : Nat → Nat → Nat) (s : List Nat)
    (Hm : ∀ k m, 4 ≤ (env.mac k m).length)
    (hdr : loc.has_sent_header = false) (hne : 0 < s.length) :
    ∀ C ∈ ((auth_aes128_sha1_client_pre_encrypt env srv salt g loc r t padA reseedCid
      reseedConn rndUid b0 rs pads s).chunks.drop 1),
      readLE16 C = C.length := by
  intro C hC
  rw [pre_encrypt_pos env srv salt g loc r t padA reseedCid reseedConn rndUid b0 rs pads s
    hdr hne] at hC
  simp only [List.drop_succ_cons, List.drop_zero] at hC
  rw [packLoop_eq env.mac _ _ _ _ Hm] at hC
  exact framesList_readLE16 env.mac _ Hm _ _ C
    (loopSpecs_ok _ _ _ _ _ _ _) hC

set_option maxRecDepth 100000 in
/-- Witness for C2 at the concrete second chunk of a 1300-byte stream. -/
theorem C2_length_field_witness :
    readLE16 ((auth_aes128_sha1_client_pre_encrypt env0 srv0 [] g0 loc0 0 0 zf
      (List.replicate 8 0) 0 [0, 0, 0, 0] 0 zf zf2
      (List.replicate 1300 7)).chunks.getD 1 []) =
    ((auth_aes128_sha1_client_pre_encrypt env0 srv0 [] g0 loc0 0 0 zf
      (List.replicate 8 0) 0 [0, 0, 0, 0] 0 zf zf2
      (List.replicate 1300 7)).chunks.getD 1 []).length :=
  C2_length_field env0 srv0 [] g0 loc0 0 0 zf (List.replicate 8 0) 0 [0, 0, 0, 0] 0 zf zf2
    (List.replicate 1300 7) (fun _ _ => by simp [env0, mac0]) rfl
    (by simp only [List.length_replicate]; omega)
    ((auth_aes128_sha1_client_pre_encrypt env0 srv0 [] g0 loc0 0 0 zf
      (List.replicate 8 0) 0 [0, 0, 0, 0] 0 zf zf2
      (List.replicate 1300 7)).chunks.getD 1 []) (by decide)

/-- C4: on a first call (header not yet sent) with non-empty input `s`,
`client_pre_encrypt` packs the first `min(1200, |s|)` bytes as the
auth-data chunk, then the remainder in 2000-byte units, so the number of
chunks is `1 + ⌈(|s| - min(1200, |s|)) / 2000⌉`; afterwards
`last_data_len = |s|`. -/
theorem C4_pre_encrypt_shape (env : AuthEnv) (srv : AuthSrv) (salt : List Nat)
    (g : AuthGlobal) (loc : AuthLocal) (r t : Nat) (padA : Nat → Nat)
    (reseedCid : List Nat) (reseedConn : Nat) (rndUid : List Nat) (b0 : Nat)
    (rs : Nat → Nat) (pads : Nat → Nat → Nat) (s : List Nat)
    (hdr : loc.has_sent_header = false) (hne : 0 < s.length) :
    (auth_aes128_sha1_client_pre_encrypt env srv salt g loc r t padA reseedCid
      reseedConn rndUid b0 rs pads s).chunks.length =
      1 + ((s.length - min 1200 s.length) + 1999) / 2000 ∧
    (auth_aes128_sha1_client_pre_encrypt env srv salt g loc r t padA reseedCid
      reseedConn rndUid b0 rs pads s).chunks.getD 0 [] =
      (auth_aes128_sha1_pack_auth_data env srv salt g loc.user_key loc.uid r t padA
        reseedCid reseedConn rndUid b0 (s.take (min 1200 s.length))).out ∧
    (auth_aes128_sha1_client_pre_encrypt env srv salt g loc r t padA reseedCid
      reseedConn rndUid b0 rs pads s).loc.last_data_len = s.length := by
  rw [pre_encrypt_pos env srv salt g loc r t padA reseedCid reseedConn rndUid b0 rs pads s
    hdr hne]
  refine ⟨?_, rfl, rfl⟩
  simp only [List.length_cons]
  rw [packLoop_length env.mac _ _ _ _ _ _ _ _ _ le_rfl]
  simp only [auth_simple_pack_unit_size, List.length_drop]
  omega

/-- Witness for C4 on a 3000-byte stream: one auth chunk plus one data
chunk. -/
theorem C4_pre_encrypt_shape_witness :
    (auth_aes128_sha1_client_pre_encrypt env0 srv0 [] g0 loc0 0 0 zf
      (List.replicate 8 0) 0 [0, 0, 0, 0] 0 zf zf2 (List.replicate 3000 7)).chunks.length =
      1 + (((List.replicate 3000 (7 : Nat)).length -
        min 1200 (List.replicate 3000 (7 : Nat)).length) + 1999) / 2000 ∧
    (auth_aes128_sha1_client_pre_encrypt env0 srv0 [] g0 loc0 0 0 zf
      (List.replicate 8 0) 0 [0, 0, 0, 0] 0 zf zf2 (List.replicate 3000 7)).chunks.getD 0 [] =
      (auth_aes128_sha1_pack_auth_data env0 srv0 [] g0 loc0.user_key loc0.uid 0 0 zf
        (List.replicate 8 0) 0 [0, 0, 0, 0] 0
        ((List.replicate 3000 (7 : Nat)).take
          (min 1200 (List.replicate 3000 (7 : Nat)).length))).out ∧
    (auth_aes128_sha1_client_pre_encrypt env0 srv0 [] g0 loc0 0 0 zf
      (List.replicate 8 0) 0 [0, 0, 0, 0] 0 zf zf2
      (List.replicate 3000 7)).loc.last_data_len = (List.replicate 3000 (7 : Nat)).length :=
  C4_pre_encrypt_shape env0 srv0 [] g0 loc0 0 0 zf (List.replicate 8 0) 0 [0, 0, 0, 0] 0
    zf zf2 (List.replicate 3000 7) rfl (by simp only [List.length_replicate]; omega)

theorem authChunkShape_length (env : AuthEnv) (srv : AuthSrv) (salt : List Nat)
    (uid userKey : List Nat) (t : Nat) (g' : AuthGlobal) (rand_len : Nat)
    (padA : Nat → Nat) (b0 : Nat) (data : List Nat)
    (Hm6 : ∀ k m, 6 ≤ (env.mac k m).length)
    (Haes : ∀ p k, (env.aes p k).length = 16) (huid : uid.length = 4) :
    (authChunkShape env srv salt uid userKey t g' rand_len padA b0 data).length =
      rand_len + 31 + data.length + 4 := by
  have h6 : ∀ k m, ((env.mac k m).take 6).length = 6 := fun k m =>
    length_take_of_le (Hm6 k m)
  have h4 : ∀ k m, ((env.mac k m).take 4).length = 4 := fun k m =>
    length_take_of_le (le_trans (by omega) (Hm6 k m))
  simp only [authChunkShape, authEncrypt24, List.length_append, h6, h4, Haes, huid,
    length_randList, List.length_cons, List.length_nil]
  omega

theorem authChunkShape_slice (env : AuthEnv) (srv : AuthSrv) (salt : List Nat)
    (uid userKey : List Nat) (t : Nat) (g' : AuthGlobal) (rand_len : Nat)
    (padA : Nat → Nat) (b0 : Nat) (data : List Nat)
    (Hm6 : ∀ k m, 6 ≤ (env.mac k m).length)
    (Haes : ∀ p k, (env.aes p k).length = 16) (huid : uid.length = 4) :
    ((authChunkShape env srv salt uid userKey t g' rand_len padA b0 data).drop 7).take 24 =
      authEncrypt24 env srv salt uid userKey t g' (rand_len + 31 + data.length + 4)
        rand_len := by
  have h6 : ((env.mac (srv.iv ++ srv.key) [b0 % 256]).take 6).length = 6 :=
    length_take_of_le (Hm6 _ _)
  have h24 : (authEncrypt24 env srv salt uid userKey t g' (rand_len + 31 + data.length + 4)
      rand_len).length = 24 := by
    simp only [authEncrypt24, List.length_append, Haes, huid]
    rw [length_take_of_le (le_trans (by omega) (Hm6 _ _))]
  simp only [authChunkShape]
  have hsplit : ([b0 % 256] ++ (env.mac (srv.iv ++ srv.key) [b0 % 256]).take 6 ++
      authEncrypt24 env srv salt uid userKey t g' (rand_len + 31 + data.length + 4)
        rand_len ++ randList padA rand_len ++ data) ++
      (env.mac userKey ([b0 % 256] ++ (env.mac (srv.iv ++ srv.key) [b0 % 256]).take 6 ++
        authEncrypt24 env srv salt uid userKey t g' (rand_len + 31 + data.length + 4)
          rand_len ++ randList padA rand_len ++ data)).take 4 =
      ([b0 % 256] ++ (env.mac (srv.iv ++ srv.key) [b0 % 256]).take 6) ++
        (authEncrypt24 env srv salt uid userKey t g' (rand_len + 31 + data.length + 4)
          rand_len ++
          (randList padA rand_len ++ (data ++
            (env.mac userKey ([b0 % 256] ++ (env.mac (srv.iv ++ srv.key) [b0 % 256]).take 6 ++
              authEncrypt24 env srv salt uid userKey t g' (rand_len + 31 + data.length + 4)
                rand_len ++ randList padA rand_len ++ data)).take 4))) := by
    simp
  rw [hsplit]
  rw [List.drop_left' (by simp [h6])]
  exact List.take_left' h24

/-- C3: for the initial auth-data chunk with payload length `n`:
`rand_len = r & 0x1FF` when `n > 400`, else `r & 0x3FF`;
`out_size = (rand_len + 31) + n + 4` (so `data_offset = rand_len + 31`);
bytes `7..31` are `uid(4) ‖ E(16) ‖ HMAC(key=iv‖server_key, msg=uid‖E)[0..4)`
with `E` the AES-128-CBC ciphertext of the id block under the key derived
from `base64(user_key) ‖ salt`; and the user key is resolved from a
`param` of the form `"<uid_decimal>:<key_str>"` as `uid = value (LE u32)`
and `user_key = H(key_str)` truncated to `hash_len`, falling back to a
4-random-byte `uid` and `user_key = server_key` otherwise. -/
theorem C3_auth_chunk_layout (env : AuthEnv) (srv : AuthSrv) (salt : List Nat)
    (g : AuthGlobal) (uid0 : List Nat) (r t : Nat) (padA : Nat → Nat)
    (reseedCid : List Nat) (reseedConn : Nat) (rndUid : List Nat) (b0 : Nat)
    (data : List Nat)
    (Hm6 : ∀ k m, 6 ≤ (env.mac k m).length)
    (Haes : ∀ p k, (env.aes p k).length = 16)
    (hrnd : rndUid.length = 4) :
    (auth_aes128_sha1_pack_auth_data env srv salt g none uid0 r t padA reseedCid
      reseedConn rndUid b0 data).out.length =
      ((if 400 < data.length then r % 512 else r % 1024) + 31) + data.length + 4 ∧
    ((auth_aes128_sha1_pack_auth_data env srv salt g none uid0 r t padA reseedCid
      reseedConn rndUid b0 data).out.drop 7).take 24 =
      authEncrypt24 env srv salt
        (auth_aes128_sha1_pack_auth_data env srv salt g none uid0 r t padA reseedCid
          reseedConn rndUid b0 data).uid
        (auth_aes128_sha1_pack_auth_data env srv salt g none uid0 r t padA reseedCid
          reseedConn rndUid b0 data).userKey
        t (auth_aes128_sha1_pack_auth_data env srv salt g none uid0 r t padA reseedCid
          reseedConn rndUid b0 data).g
        (((if 400 < data.length then r % 512 else r % 1024) + 31) + data.length + 4)
        (if 400 < data.length then r % 512 else r % 1024) ∧
    ((auth_aes128_sha1_pack_auth_data env srv salt g none uid0 r t padA reseedCid
        reseedConn rndUid b0 data).uid,
      (auth_aes128_sha1_pack_auth_data env srv salt g none uid0 r t padA reseedCid
        reseedConn rndUid b0 data).userKey) = resolveUserKey env srv rndUid ∧
    (∀ p uidStr keyStr, srv.param = some p → p ≠ [] →
      splitColon p = some (uidStr, keyStr) →
      resolveUserKey env srv rndUid =
        (le32 (strtolDec uidStr % 4294967296), (env.hashF keyStr).take env.hashLen)) ∧
    (srv.param = none → resolveUserKey env srv rndUid = (rndUid, srv.key)) ∧
    (∀ p, srv.param = some p → splitColon p = none →
      resolveUserKey env srv rndUid = (rndUid, srv.key)) := by
  have huid : (resolveUserKey env srv rndUid).1.length = 4 :=
    resolveUserKey_uid_length env srv rndUid hrnd
  have hcf := pack_auth_data_eq env srv salt g none uid0 r t padA reseedCid reseedConn
    rndUid b0 data Hm6 Haes huid
  have huidA : (auth_aes128_sha1_pack_auth_data env srv salt g none uid0 r t padA
      reseedCid reseedConn rndUid b0 data).uid.length = 4 := huid
  have hgA : (auth_aes128_sha1_pack_auth_data env srv salt g none uid0 r t padA
      reseedCid reseedConn rndUid b0 data).g =
      auth_update_connection_id reseedCid reseedConn g := rfl
  refine ⟨?_, ?_, ?_, ?_, ?_, ?_⟩
  · rw [hcf]
    exact authChunkShape_length env srv salt _ _ t _ _ padA b0 data Hm6 Haes huidA
  · rw [hcf, hgA]
    exact authChunkShape_slice env srv salt _ _ t _ _ padA b0 data Hm6 Haes huidA
  · exact Prod.mk.eta
  · intro p uidStr keyStr hp hpne hsc
    simp [resolveUserKey, hp, hpne, hsc]
  · intro h
    simp [resolveUserKey, h]
  · intro p hp hsc
    by_cases hpe : p = []
    · subst hpe
      simp [resolveUserKey, hp]
    · simp [resolveUserKey, hp, hsc, hpe]

/-- Witness for C3: the auth-data chunk for a 1-byte payload in the zero
crypto environment has the predicted total length. -/
theorem C3_auth_chunk_layout_witness :
    (auth_aes128_sha1_pack_auth_data env0 srv0 [] g0 none [0, 0, 0, 0] 0 0 zf
      (List.replicate 8 0) 0 [0, 0, 0, 0] 0 [1]).out.length = 36 :=
  (C3_auth_chunk_layout env0 srv0 [] g0 [0, 0, 0, 0] 0 0 zf (List.replicate 8 0) 0
    [0, 0, 0, 0] 0 [1] (fun _ _ => by simp [env0, mac0]) (fun _ _ => by simp [env0])
    rfl).1

/-- C1 (counterexample to the claim as stated): with matching user key,
`pack_id`/`recv_id` origin 1 and the whole `client_pre_encrypt` output
(initial auth-data chunk included) fed back into `client_post_decrypt`,
the round trip fails: on the stream `[1]` in the zero crypto environment
the receiver reports an error (`none`), not `[1]` — the auth-data chunk
does not carry the `pack_data` framing the receive loop expects. -/
theorem C1_counterexample :
    (postDecryptAll env0.mac
      ((auth_aes128_sha1_client_pre_encrypt env0 srv0 [] g0 loc0 0 0 zf
        (List.replicate 8 0) 0 [0, 0, 0, 0] 0 zf zf2 [1]).loc.user_key.getD [])
      ⟨[], 1⟩
      [(auth_aes128_sha1_client_pre_encrypt env0 srv0 [] g0 loc0 0 0 zf
        (List.replicate 8 0) 0 [0, 0, 0, 0] 0 zf zf2 [1]).chunks.flatten]).1 = none := by
  decide

/-- C1 (amended): for every byte stream `s`, with matching user key and
`pack_id`/`recv_id` origin at 1, applying `client_post_decrypt` to the
concatenation of the *non-initial* chunks of `client_pre_encrypt s`
(all chunks except the initial auth-data chunk), reassembled at
arbitrary chunk boundaries, yields exactly the part of `s` after the
auth-data head, i.e. `s.drop (min 1200 |s|)`. -/
theorem C1_round_trip_data_frames (env : AuthEnv) (srv : AuthSrv) (salt : List Nat)
    (g : AuthGlobal) (loc : AuthLocal) (r t : Nat) (padA : Nat → Nat)
    (reseedCid : List Nat) (reseedConn : Nat) (rndUid : List Nat) (b0 : Nat)
    (rs : Nat → Nat) (pads : Nat → Nat → Nat) (s : List Nat)
    (pieces : List (List Nat)) (uk : List Nat)
    (Hm : ∀ k m, 4 ≤ (env.mac k m).length)
    (hdr : loc.has_sent_header = false) (hne : 0 < s.length) (hpid : loc.pack_id = 1)
    (huk : (auth_aes128_sha1_client_pre_encrypt env srv salt g loc r t padA reseedCid
      reseedConn rndUid b0 rs pads s).loc.user_key = some uk)
    (hpieces : pieces.flatten =
      ((auth_aes128_sha1_client_pre_encrypt env srv salt g loc r t padA reseedCid
        reseedConn rndUid b0 rs pads s).chunks.drop 1).flatten)
    (hcap : (((auth_aes128_sha1_client_pre_encrypt env srv salt g loc r t padA reseedCid
      reseedConn rndUid b0 rs pads s).chunks.drop 1).flatten).length ≤ 16384) :
    postDecryptAll env.mac uk ⟨[], 1⟩ pieces =
      (some (s.drop (min 1200 s.length)),
        ⟨[], 1 + ((auth_aes128_sha1_client_pre_encrypt env srv salt g loc r t padA
          reseedCid reseedConn rndUid b0 rs pads s).chunks.length - 1)⟩) := by
  rw [pre_encrypt_pos env srv salt g loc r t padA reseedCid reseedConn rndUid b0 rs pads s
    hdr hne] at huk hpieces hcap ⊢
  simp only [List.drop_succ_cons, List.drop_zero] at hpieces hcap
  have huk' : (auth_aes128_sha1_pack_auth_data env srv salt g loc.user_key loc.uid r t
      padA reseedCid reseedConn rndUid b0 (s.take (min 1200 s.length))).userKey = uk := by
    exact Option.some.inj huk
  rw [packLoop_eq env.mac _ _ _ _ Hm] at hpieces hcap ⊢
  rw [huk', hpid] at hpieces hcap ⊢
  have hstream := postDecryptAll_stream env.mac uk Hm pieces
    (loopSpecs loc.last_data_len srv.bufferSize s.length
      (s.drop (min 1200 s.length)).length rs pads (s.drop (min 1200 s.length)))
    1 []
    (loopSpecs_ok loc.last_data_len srv.bufferSize s.length _ _ _ _)
    (by simpa using hpieces)
    (fun f₁ L₂ _ => by simp)
    hcap
  rw [hstream]
  rw [loopSpecs_payload loc.last_data_len srv.bufferSize s.length _ _ _ _ le_rfl]
  simp only [List.length_cons, framesList_length]
  rw [Nat.add_sub_cancel]

set_option maxRecDepth 100000 in
/-- Witness for C1 on a 1300-byte stream: one 100-byte data chunk after
the auth head, delivered in one piece. -/
theorem C1_round_trip_data_frames_witness :
    postDecryptAll env0.mac [0] ⟨[], 1⟩
      [((auth_aes128_sha1_client_pre_encrypt env0 srv0 [] g0 loc0 0 0 zf
        (List.replicate 8 0) 0 [0, 0, 0, 0] 0 zf zf2
        (List.replicate 1300 7)).chunks.drop 1).flatten] =
      (some (List.replicate 100 7), ⟨[], 2⟩) :=
  C1_round_trip_data_frames env0 srv0 [] g0 loc0 0 0 zf (List.replicate 8 0) 0
    [0, 0, 0, 0] 0 zf zf2 (List.replicate 1300 7)
    [((auth_aes128_sha1_client_pre_encrypt env0 srv0 [] g0 loc0 0 0 zf
      (List.replicate 8 0) 0 [0, 0, 0, 0] 0 zf zf2
      (List.replicate 1300 7)).chunks.drop 1).flatten] [0]
    (fun _ _ => by simp [env0, mac0]) rfl
    (by simp only [List.length_replicate]; omega) rfl (by decide) (by simp) (by decide)

end SSR
